import Mathlib

/-!
# Abans ABX client: tick decoding, validation, gap tracking and backfill

A shallow embedding of `src/Abans/client.cpp`.

* `unsigned char` is `Fin 256`; a receive buffer is a `List Byte` read with
  `rd` (index `i` of the C array).
* `char` is the signed 8-bit character type of the Windows targets the program
  is written for (`winsock2.h`); a `char` value is the `Int` in `-128..127`.
* `int32_t` values are `Int`s; the decoders compute on the 32-bit pattern and
  read it back as two's complement (`int32`).
* The globals `tick_vector` and `missed_packets` form `Globals`; the member
  `seq_num` of `ClientApplication` is threaded explicitly. It is an `int`: every
  `seq_num++` goes through `intWrap`, the reduction to 32 bits.
* `std::sort` is library code. Where only its contract matters it is a
  parameter (`StdSort`); where its algorithm matters it is `std_sort`, the
  function of the GNU library.
* The network is an input: every session is run against a description of what
  the socket calls return.
-/

namespace client

/-- An `unsigned char`. -/
abbrev Byte := Fin 256

/-- The cast `(char)(buffer[i])`: the same 8 bits read as a signed character. -/
def toChar (b : Byte) : Int :=
  if b.val < 128 then (b.val : Int) else (b.val : Int) - 256

/-- The 32-bit pattern `u` read as a two's-complement `int32_t`. -/
def int32 (u : Nat) : Int :=
  if u % 2 ^ 32 < 2 ^ 31 then ((u % 2 ^ 32 : Nat) : Int) else ((u % 2 ^ 32 : Nat) : Int) - 2 ^ 32

/-- The C array access `buffer[i]`. -/
def rd (buffer : List Byte) (i : Nat) : Byte := buffer.getD i 0

/-- The struct `Tick`. -/
structure Tick where
  symbol0 : Int
  symbol1 : Int
  symbol2 : Int
  symbol3 : Int
  buysell_indicator : Int
  quantity : Int
  price : Int
  packet_sequence : Int
  deriving DecidableEq

/-- The function `byteToBuySellIndicator`. -/
def byteToBuySellIndicator (buffer : List Byte) (start_pos : Nat) : Int :=
  toChar (rd buffer (start_pos + 4))

/-- The function `byteToQuantity`: `b5 << 24 | b6 << 16 | b7 << 8 | b8` on `int32_t`. -/
def byteToQuantity (buffer : List Byte) (start_pos : Nat) : Int :=
  int32 ((rd buffer (start_pos + 5)).val <<< 24 |||
         (rd buffer (start_pos + 6)).val <<< 16 |||
         (rd buffer (start_pos + 7)).val <<< 8 |||
         (rd buffer (start_pos + 8)).val)

/-- The function `byteToPrice`. -/
def byteToPrice (buffer : List Byte) (start_pos : Nat) : Int :=
  int32 ((rd buffer (start_pos + 9)).val <<< 24 |||
         (rd buffer (start_pos + 10)).val <<< 16 |||
         (rd buffer (start_pos + 11)).val <<< 8 |||
         (rd buffer (start_pos + 12)).val)

/-- The function `byteToPacketSequence`. -/
def byteToPacketSequence (buffer : List Byte) (start_pos : Nat) : Int :=
  int32 ((rd buffer (start_pos + 13)).val <<< 24 |||
         (rd buffer (start_pos + 14)).val <<< 16 |||
         (rd buffer (start_pos + 15)).val <<< 8 |||
         (rd buffer (start_pos + 16)).val)

/-- The block that fills `next_tick` from `ABX_buffer` at `start`
(lines 290-300; lines 366-376 are the same block with `start = 0`). -/
def decodeTick (ABX_buffer : List Byte) (start : Nat) : Tick :=
  { symbol0 := toChar (rd ABX_buffer start)
    symbol1 := toChar (rd ABX_buffer (start + 1))
    symbol2 := toChar (rd ABX_buffer (start + 2))
    symbol3 := toChar (rd ABX_buffer (start + 3))
    buysell_indicator := byteToBuySellIndicator ABX_buffer start
    quantity := byteToQuantity ABX_buffer start
    price := byteToPrice ABX_buffer start
    packet_sequence := byteToPacketSequence ABX_buffer start }

/-- The function `tickIntegrityCheck`: each `throw` is caught at once and turned
into `return false`. `char(65)`, `char(90)`, `'B'`, `'S'` are 65, 90, 66, 83. -/
def tickIntegrityCheck (t : Tick) : Bool :=
  if !(decide (t.symbol0 ≥ 65) && decide (t.symbol0 ≤ 90)) ||
     !(decide (t.symbol1 ≥ 65) && decide (t.symbol1 ≤ 90)) ||
     !(decide (t.symbol2 ≥ 65) && decide (t.symbol2 ≤ 90)) ||
     !(decide (t.symbol3 ≥ 65) && decide (t.symbol3 ≤ 90)) then false
  else if !(t.buysell_indicator == 66 || t.buysell_indicator == 83) then false
  else if !(decide (t.quantity > 0)) then false
  else if !(decide (t.price > 0)) then false
  else if !(decide (t.packet_sequence > 0)) then false
  else true

/-- The value the wire format gives four bytes: unsigned big-endian, then two's
complement (`2^32` is subtracted when the unsigned value is at least `2^31`). -/
def beSigned32 (b0 b1 b2 b3 : Byte) : Int :=
  if b0.val * 2 ^ 24 + b1.val * 2 ^ 16 + b2.val * 2 ^ 8 + b3.val ≥ 2 ^ 31 then
    ((b0.val * 2 ^ 24 + b1.val * 2 ^ 16 + b2.val * 2 ^ 8 + b3.val : Nat) : Int) - 2 ^ 32
  else ((b0.val * 2 ^ 24 + b1.val * 2 ^ 16 + b2.val * 2 ^ 8 + b3.val : Nat) : Int)

/-- The unsigned big-endian value of four bytes. -/
def beUnsigned (b0 b1 b2 b3 : Byte) : Nat :=
  b0.val * 2 ^ 24 + b1.val * 2 ^ 16 + b2.val * 2 ^ 8 + b3.val

/-! ## Program state and the socket layer -/

/-- The globals `tick_vector` (a vector, the back is the end of the list) and
`missed_packets` (a stack, the top is the head of the list). -/
structure Globals where
  tick_vector : List Tick
  missed_packets : List Int
  deriving DecidableEq

/-- What one call of `recv` does: it returns `SOCKET_ERROR`, or it returns
`bytes.length` after writing `bytes` to the front of the buffer (`data []` is
the return value 0 of a closed connection). -/
inductive Recv where
  | error
  | data (bytes : List Byte)
  deriving DecidableEq

/-- The buffer `ABX_buffer` after `recv` wrote `bytes` to its front. -/
def recvInto (ABX_buffer bytes : List Byte) : List Byte :=
  bytes ++ ABX_buffer.drop bytes.length

/-- Control after a block that may call `exit(0)`: either execution goes on
with a state, or the process has ended with the globals as they then were. -/
inductive Outcome (σ : Type) where
  | running (s : σ)
  | exited (g : Globals)
  deriving DecidableEq

/-- The members of `ClientApplication` that the two request methods read. -/
structure ClientApplication where
  seq_num : Int
  WSAstartup_successful : Bool
  connection_successful : Bool
  deriving DecidableEq

/-- The constructor. `WSA_ok` says `WSAStartup` returned 0, `connect_ok` that
`connect` did not return `SOCKET_ERROR`; `uninit` is the value found in
`connection_successful`, which the constructor leaves unset when `WSAStartup`
fails. -/
def ClientApplication.init (WSA_ok connect_ok uninit : Bool) : ClientApplication :=
  if !WSA_ok then
    { seq_num := 1, WSAstartup_successful := false, connection_successful := uninit }
  else if !connect_ok then
    { seq_num := 1, WSAstartup_successful := true, connection_successful := false }
  else
    { seq_num := 1, WSAstartup_successful := true, connection_successful := true }

/-- The `int` that holds the result of an `int` operation whose mathematical
value is `x`: the value is reduced to 32 bits, two's complement, which is what
the built program does when `seq_num++` passes `2^31 - 1`. -/
def intWrap (x : Int) : Int := (x + 2 ^ 31) % 2 ^ 32 - 2 ^ 31

/-- The loop `while(seq_num<next_tick.packet_sequence) missed_packets.push(seq_num++)`.
The first argument bounds the number of iterations; `missedFuel` is enough when
`seq_num` and `packet_sequence` are `int` values. -/
def pushMissed : Nat → Int → Int → List Int → Int × List Int
  | 0, seq_num, _, missed_packets => (seq_num, missed_packets)
  | fuel + 1, seq_num, packet_sequence, missed_packets =>
    if seq_num < packet_sequence then
      pushMissed fuel (intWrap (seq_num + 1)) packet_sequence (seq_num :: missed_packets)
    else (seq_num, missed_packets)

/-- The number of iterations `pushMissed` needs. -/
def missedFuel (seq_num packet_sequence : Int) : Nat := (packet_sequence - seq_num).toNat

/-- The state of a request-all session: the globals and `seq_num`. -/
structure Bulk where
  g : Globals
  seq_num : Int
  deriving DecidableEq

/-- Lines 302-322: what the extraction loop does with the decoded `next_tick`. -/
def processTick (next_tick : Tick) (b : Bulk) : Outcome Bulk :=
  if tickIntegrityCheck next_tick then
    let r :=
      if next_tick.packet_sequence ≠ b.seq_num then
        pushMissed (missedFuel b.seq_num next_tick.packet_sequence) b.seq_num
          next_tick.packet_sequence b.g.missed_packets
      else (b.seq_num, b.g.missed_packets)
    .running
      { g := { tick_vector := b.g.tick_vector ++ [next_tick], missed_packets := r.2 }
        seq_num := intWrap (r.1 + 1) }
  else .exited b.g

/-- The loop `while(ABX_buffer_size>=packet_size_default)` of lines 284-325.
The first argument bounds the number of iterations; the caller passes the
number of bytes received, which is enough. -/
def extractLoop : Nat → List Byte → Nat → Nat → Bulk → Outcome Bulk
  | 0, _, _, _, b => .running b
  | fuel + 1, ABX_buffer, ABX_buffer_size, start, b =>
    if ABX_buffer_size ≥ 17 then
      match processTick (decodeTick ABX_buffer start) b with
      | .running b1 => extractLoop fuel ABX_buffer (ABX_buffer_size - 17) (start + 17) b1
      | .exited g => .exited g
    else .running b

/-- How a request-all session came to its end. -/
inductive SessionEnd where
  | not_connected
  | send_failed
  | completed
  | no_data
  deriving DecidableEq

/-- The result of a request-all session that returned. -/
structure BulkEnd where
  g : Globals
  seq_num : Int
  ending : SessionEnd
  deriving DecidableEq

/-- The loop `while(true)` of lines 257-326, run against the successive results
of `recv`. After the last described result the connection counts as closed
(`recv` returns 0). -/
def recvLoop : List Recv → List Byte → Bulk → Outcome BulkEnd
  | [], _, b =>
    .running { g := b.g, seq_num := b.seq_num,
               ending := if !b.g.tick_vector.isEmpty then .completed else .no_data }
  | .error :: _, _, b =>
    .running { g := b.g, seq_num := b.seq_num,
               ending := if !b.g.tick_vector.isEmpty then .completed else .no_data }
  | .data bytes :: rest, ABX_buffer, b =>
    if bytes.length = 0 then
      .running { g := b.g, seq_num := b.seq_num,
                 ending := if !b.g.tick_vector.isEmpty then .completed else .no_data }
    else
      match extractLoop bytes.length (recvInto ABX_buffer bytes) bytes.length 0 b with
      | .running b1 => recvLoop rest (recvInto ABX_buffer bytes) b1
      | .exited g => .exited g

/-- The method `sendAllPacketsRequest`. `send_ok` says `send` did not return
`SOCKET_ERROR`; `ABX_buffer` is what the local array holds before the first
`recv`; `reads` are the results of the successive calls of `recv`. -/
def sendAllPacketsRequest (C : ClientApplication) (send_ok : Bool) (ABX_buffer : List Byte)
    (reads : List Recv) (g : Globals) : Outcome BulkEnd :=
  if !C.WSAstartup_successful || !C.connection_successful then
    .running { g := g, seq_num := C.seq_num, ending := .not_connected }
  else if !send_ok then
    .running { g := g, seq_num := C.seq_num, ending := .send_failed }
  else recvLoop reads ABX_buffer { g := g, seq_num := C.seq_num }

/-- The method `sendSpecificPacketRequests`. `r` is the result of the one call
of `recv`. `main` calls the method only while `missed_packets` is not empty;
`top()` only feeds the request payload and the log. -/
def sendSpecificPacketRequests (C : ClientApplication) (send_ok : Bool) (ABX_buffer : List Byte)
    (r : Recv) (g : Globals) : Outcome Globals :=
  if !C.WSAstartup_successful || !C.connection_successful then .running g
  else if !send_ok then .running g
  else
    match r with
    | .error => .running g
    | .data bytes =>
      if bytes.length = 0 then .running g
      else
        let next_tick := decodeTick (recvInto ABX_buffer bytes) 0
        if tickIntegrityCheck next_tick then
          .running { tick_vector := g.tick_vector ++ [next_tick]
                     missed_packets := g.missed_packets.tail }
        else .exited g

/-- The functor `Comparator`. -/
def Comparator (T1 T2 : Tick) : Bool := decide (T1.packet_sequence < T2.packet_sequence)

/-- The contract of `std::sort(first, last, comp)`, which is library code: the
range is rearranged (a permutation of what it held) so that `comp` puts no later
element before an earlier one. Nothing is promised about elements that `comp`
does not order. -/
structure StdSort where
  run : List Tick → List Tick
  perm : ∀ l, List.Perm (run l) l
  sorted : ∀ l, List.Pairwise (fun a b => Comparator b a = false) (run l)

/-- Insertion by sequence number: one algorithm that meets the contract of
`std::sort`, used where a run of `main` is evaluated. -/
def insertionStdSort : StdSort where
  run := List.insertionSort (fun a b => a.packet_sequence ≤ b.packet_sequence)
  perm := List.perm_insertionSort _
  sorted := fun l => by
    haveI : IsTotal Tick (fun a b => a.packet_sequence ≤ b.packet_sequence) :=
      ⟨fun a b => le_total a.packet_sequence b.packet_sequence⟩
    haveI : IsTrans Tick (fun a b => a.packet_sequence ≤ b.packet_sequence) :=
      ⟨fun _ _ _ hab hbc => le_trans hab hbc⟩
    refine (List.sorted_insertionSort (fun a b => a.packet_sequence ≤ b.packet_sequence) l).imp ?_
    intro a b hab
    simpa [Comparator] using hab

/-! ## Sessions and `main` -/

/-- What the socket layer does during one request-all session of `main`. -/
structure AllSession where
  WSA_ok : Bool
  connect_ok : Bool
  uninit : Bool
  send_ok : Bool
  ABX_buffer : List Byte
  reads : List Recv
  deriving DecidableEq

/-- What the socket layer does during one request-one session of `main`. -/
structure OneSession where
  WSA_ok : Bool
  connect_ok : Bool
  uninit : Bool
  send_ok : Bool
  ABX_buffer : List Byte
  r : Recv
  deriving DecidableEq

/-- Lines 460-461: `ClientApplication C_a; C_a.sendAllPacketsRequest();`. -/
def runAll (s : AllSession) (g : Globals) : Outcome BulkEnd :=
  sendAllPacketsRequest (ClientApplication.init s.WSA_ok s.connect_ok s.uninit)
    s.send_ok s.ABX_buffer s.reads g

/-- Lines 472-473: `ClientApplication C_s; C_s.sendSpecificPacketRequests();`. -/
def runOne (s : OneSession) (g : Globals) : Outcome Globals :=
  sendSpecificPacketRequests (ClientApplication.init s.WSA_ok s.connect_ok s.uninit)
    s.send_ok s.ABX_buffer s.r g

/-- How a loop of `main` ends: its condition became false (`done`), a session
called `exit(0)` (`exited`), or the described sessions are used up while the
condition still holds (`waiting`). -/
inductive Phase where
  | done (g : Globals)
  | exited (g : Globals)
  | waiting (g : Globals)
  deriving DecidableEq

/-- The loop `while(client::tick_vector.empty())` of lines 458-462. -/
def requestAllLoop : List AllSession → Globals → Phase
  | [], g => if g.tick_vector.isEmpty then .waiting g else .done g
  | s :: rest, g =>
    if g.tick_vector.isEmpty then
      match runAll s g with
      | .running e => requestAllLoop rest e.g
      | .exited g1 => .exited g1
    else .done g

/-- The loop `while(!client::missed_packets.empty())` of lines 469-474. -/
def backfillLoop : List OneSession → Globals → Phase
  | [], g => if !g.missed_packets.isEmpty then .waiting g else .done g
  | s :: rest, g =>
    if !g.missed_packets.isEmpty then
      match runOne s g with
      | .running g1 => backfillLoop rest g1
      | .exited g1 => .exited g1
    else .done g

/-- How `main` ends: `writeJSON` is called on the sorted `tick_vector`
(`written`), or the process ended in `exit(0)`, or it is still in one of its
loops when the described sessions are used up. -/
inductive MainResult where
  | written (tick_vector : List Tick)
  | exited (g : Globals)
  | waiting (g : Globals)
  deriving DecidableEq

/-- The function `main`, run against the request-all sessions `alls` and the
request-one sessions `ones`, in the order in which it opens them. -/
def main (sort : StdSort) (alls : List AllSession) (ones : List OneSession) : MainResult :=
  match requestAllLoop alls { tick_vector := [], missed_packets := [] } with
  | .done g =>
    match backfillLoop ones g with
    | .done g1 => .written (sort.run g1.tick_vector)
    | .exited g1 => .exited g1
    | .waiting g1 => .waiting g1
  | .exited g => .exited g
  | .waiting g => .waiting g

/-! ## Vocabulary of the specification -/

/-- The records that lie whole in a read of `bytes`: one per 17 bytes. -/
def windows (bytes : List Byte) : List Tick :=
  (List.range (bytes.length / 17)).map (fun i => decodeTick bytes (17 * i))

/-- The records of a bulk transfer, in arrival order: those of every read
before the first read that is an error or returns no bytes. -/
def sessionTicks : List Recv → List Tick
  | [] => []
  | .error :: _ => []
  | .data bytes :: rest => if bytes.length = 0 then [] else windows bytes ++ sessionTicks rest

/-- The sequence numbers `lo, lo+1, ..., hi-1`. -/
def seqRange (lo hi : Int) : List Int :=
  (List.range (hi - lo).toNat).map (fun (i : Nat) => lo + (i : Int))

/-- The sequence numbers of records. -/
def seqs (ts : List Tick) : List Int := ts.map (fun t => t.packet_sequence)

/-- The records `ts` put through `processTick` one after the other. -/
def processTicks : List Tick → Bulk → Outcome Bulk
  | [], b => .running b
  | t :: ts, b =>
    match processTick t b with
    | .running b1 => processTicks ts b1
    | .exited g => .exited g

/-- The gap tracker's `observe(seq)` on the pair (expected sequence, pending
stack): the numbers from the expected one up to `seq - 1` are added, then the
expected sequence is moved one past. -/
def observe (st : Int × List Int) (q : Int) : Int × List Int :=
  (max st.1 q + 1, (seqRange st.1 q).reverse ++ st.2)

/-- The gap tracker after the sequence numbers `qs` were observed in order. -/
def observeAll (st : Int × List Int) (qs : List Int) : Int × List Int :=
  qs.foldl observe st

/-- Lines 305-311 and 322 as a function of `seq_num` and `missed_packets`: what
`processTick` does to the two for a valid record with sequence number `q`. -/
def track (st : Int × List Int) (q : Int) : Int × List Int :=
  (intWrap
      ((if q ≠ st.1 then pushMissed (missedFuel st.1 q) st.1 q st.2 else (st.1, st.2)).1 + 1),
    (if q ≠ st.1 then pushMissed (missedFuel st.1 q) st.1 q st.2 else (st.1, st.2)).2)

/-- The function `track` over the sequence numbers `qs` in order. -/
def trackAll (st : Int × List Int) (qs : List Int) : Int × List Int :=
  qs.foldl track st

/-- The ending a request-all session logs when `recv` reports the end. -/
def endingOf (b : Bulk) : SessionEnd :=
  if !b.g.tick_vector.isEmpty then .completed else .no_data

/-- The numbers `1..m` that are not in `received`, largest first. -/
def missing (received : List Int) (m : Int) : List Int :=
  ((seqRange 1 (m + 1)).filter (fun n => decide (n ∉ received))).reverse

/-- A request-one session that answers the request for `n`: it connects, sends,
and reads a response that decodes to a valid record with sequence number `n`. -/
def Serves (n : Int) (s : OneSession) : Prop :=
  s.WSA_ok = true ∧ s.connect_ok = true ∧ s.send_ok = true ∧
  ∃ bytes, s.r = .data bytes ∧ bytes.length ≠ 0 ∧
    tickIntegrityCheck (decodeTick (recvInto s.ABX_buffer bytes) 0) = true ∧
    (decodeTick (recvInto s.ABX_buffer bytes) 0).packet_sequence = n

/-- The states of the globals at the end of a session (returned or ended by
`exit(0)`), for any sequence of sessions from the empty collection. -/
inductive Reachable : Globals → Prop where
  | start : Reachable { tick_vector := [], missed_packets := [] }
  | all_returned (s : AllSession) (g : Globals) (e : BulkEnd) :
      Reachable g → runAll s g = .running e → Reachable e.g
  | all_exited (s : AllSession) (g g1 : Globals) :
      Reachable g → runAll s g = .exited g1 → Reachable g1
  | one_returned (s : OneSession) (g g1 : Globals) :
      Reachable g → runOne s g = .running g1 → Reachable g1
  | one_exited (s : OneSession) (g g1 : Globals) :
      Reachable g → runOne s g = .exited g1 → Reachable g1

/-- Every record of the result collection passes `tickIntegrityCheck`. -/
def AllValid (g : Globals) : Prop := ∀ t ∈ g.tick_vector, tickIntegrityCheck t = true

/-- The globals at the end of a loop of `main`. -/
def Phase.globals : Phase → Globals
  | .done g => g
  | .exited g => g
  | .waiting g => g

/-- The frame of a record with symbol `MSFT`, side `B`, quantity 50, price 100
and sequence number `2^31 - 1` (bytes `7F FF FF FF`). -/
def maxFrame : List Byte :=
  [77, 83, 70, 84, 66, 0, 0, 0, 50, 0, 0, 0, 100, 127, 255, 255, 255]

/-- A frame like `frame n` with quantity 0. -/
def zeroQuantityFrame (n : Byte) : List Byte :=
  [77, 83, 70, 84, 66, 0, 0, 0, 0, 0, 0, 0, 100, 0, 0, 0, n]

/-- The 17-byte frame of a record with symbol `MSFT`, side `B`, quantity 50,
price 100 and sequence number `n` (for `n < 256`). -/
def frame (n : Byte) : List Byte :=
  [77, 83, 70, 84, 66, 0, 0, 0, 50, 0, 0, 0, 100, 0, 0, 0, n]

/-- The record that `frame n` decodes to. -/
def tickOf (n : Int) : Tick :=
  { symbol0 := 77, symbol1 := 83, symbol2 := 70, symbol3 := 84, buysell_indicator := 66
    quantity := 50, price := 100, packet_sequence := n }

/-- A request-all session that connects, sends, and then reads `reads`. -/
def allOf (reads : List Recv) : AllSession :=
  { WSA_ok := true, connect_ok := true, uninit := false, send_ok := true
    ABX_buffer := [], reads := reads }

/-- A request-one session that connects, sends, and reads `r`. -/
def oneOf (r : Recv) : OneSession :=
  { WSA_ok := true, connect_ok := true, uninit := false, send_ok := true
    ABX_buffer := [], r := r }

/-! ## Request frames, session counting and further vocabulary -/

/-- The conversion of an `int` to `char` in `payload[1] = n`: the low 8 bits of
`n`, read as a signed character. -/
def intToChar (n : Int) : Int := (n + 128) % 256 - 128

/-- The byte that `send` puts on the wire for a `char` of `payload`. -/
def charToByte (c : Int) : Byte := Fin.ofNat (c % 256).toNat

/-- Lines 240-241: the payload that `sendAllPacketsRequest` sends. -/
def allPacketsPayload : List Byte := [charToByte (intToChar 1), charToByte (intToChar 0)]

/-- Lines 337-338: the payload that `sendSpecificPacketRequests` sends when `n`
is the value of `missed_packets.top()`. -/
def specificPacketPayload (n : Int) : List Byte :=
  [charToByte (intToChar 2), charToByte (intToChar n)]

/-- Line 331: `int n = client::missed_packets.top()`, on a stack that is not
empty. -/
def requested (g : Globals) : Int := g.missed_packets.headD 0

/-- The number of request-one sessions that the loop of lines 469-474 opens. -/
def backfillSessions : List OneSession → Globals → Nat
  | [], _ => 0
  | s :: rest, g =>
    if !g.missed_packets.isEmpty then
      match runOne s g with
      | .running g1 => 1 + backfillSessions rest g1
      | .exited _ => 1
    else 0

/-- A request-one session that succeeds with a valid record: it connects,
sends, and reads a response that decodes to a record passing validation. -/
def Succeeds (s : OneSession) : Prop :=
  s.WSA_ok = true ∧ s.connect_ok = true ∧ s.send_ok = true ∧
  ∃ bytes, s.r = .data bytes ∧ bytes.length ≠ 0 ∧
    tickIntegrityCheck (decodeTick (recvInto s.ABX_buffer bytes) 0) = true

/-- A response of 16 bytes: a frame with symbol `MSFT`, side `B`, quantity 50,
price 100, whose last byte is missing; the sequence group starts 0, 0, 1. -/
def shortResponse : List Byte :=
  [77, 83, 70, 84, 66, 0, 0, 0, 50, 0, 0, 0, 100, 0, 0, 1]

/-- A request-one session that connects, sends, and reads `r` into an array
that holds `stale` before the call of `recv`. -/
def oneInto (stale : List Byte) (r : Recv) : OneSession :=
  { WSA_ok := true, connect_ok := true, uninit := false, send_ok := true
    ABX_buffer := stale, r := r }

/-- A record like `tickOf n` with quantity `q`. -/
def tickWith (n q : Int) : Tick :=
  { symbol0 := 77, symbol1 := 83, symbol2 := 70, symbol3 := 84, buysell_indicator := 66
    quantity := q, price := 100, packet_sequence := n }

/-! ## The library function `std::sort`

The call of line 477 runs the function template `std::sort` of the C++ library
the program is built with. What follows is that function as the GNU library
has it (`bits/stl_algo.h` and `bits/stl_heap.h` of GCC 12), with `Comparator`
as `__comp`; the range is a list and an iterator is an index into it. Loops
carry a bound on their number of iterations as first argument. -/

/-- The element `*(it)` of the range held in `v`. -/
def elemAt (v : List Tick) (it : Nat) : Tick :=
  v.getD it
    { symbol0 := 0, symbol1 := 0, symbol2 := 0, symbol3 := 0, buysell_indicator := 0
      quantity := 0, price := 0, packet_sequence := 0 }

/-- The call `std::iter_swap(a, b)`. -/
def iterSwap (v : List Tick) (a b : Nat) : List Tick :=
  (v.set a (elemAt v b)).set b (elemAt v a)

/-- The function `__move_median_to_first`. -/
def moveMedianToFirst (v : List Tick) (result a b c : Nat) : List Tick :=
  if Comparator (elemAt v a) (elemAt v b) then
    if Comparator (elemAt v b) (elemAt v c) then iterSwap v result b
    else if Comparator (elemAt v a) (elemAt v c) then iterSwap v result c
    else iterSwap v result a
  else if Comparator (elemAt v a) (elemAt v c) then iterSwap v result a
  else if Comparator (elemAt v b) (elemAt v c) then iterSwap v result c
  else iterSwap v result b

/-- The loop `while (__comp(__first, __pivot)) ++__first;`. -/
def scanUp : Nat → List Tick → Nat → Nat → Nat
  | 0, _, first, _ => first
  | fuel + 1, v, first, pivot =>
    if Comparator (elemAt v first) (elemAt v pivot) then scanUp fuel v (first + 1) pivot
    else first

/-- The loop `while (__comp(__pivot, __last)) --__last;`. -/
def scanDown : Nat → List Tick → Nat → Nat → Nat
  | 0, _, last, _ => last
  | fuel + 1, v, last, pivot =>
    if Comparator (elemAt v pivot) (elemAt v last) then scanDown fuel v (last - 1) pivot
    else last

/-- The function `__unguarded_partition`: the range after the swaps, and the
iterator returned. -/
def unguardedPartition : Nat → List Tick → Nat → Nat → Nat → List Tick × Nat
  | 0, v, first, _, _ => (v, first)
  | fuel + 1, v, first, last, pivot =>
    if !(decide (scanUp v.length v first pivot
          < scanDown v.length v (last - 1) pivot)) then
      (v, scanUp v.length v first pivot)
    else
      unguardedPartition fuel
        (iterSwap v (scanUp v.length v first pivot) (scanDown v.length v (last - 1) pivot))
        (scanUp v.length v first pivot + 1)
        (scanDown v.length v (last - 1) pivot) pivot

/-- The function `__unguarded_partition_pivot`. -/
def unguardedPartitionPivot (v : List Tick) (first last : Nat) : List Tick × Nat :=
  unguardedPartition v.length
    (moveMedianToFirst v first (first + 1) (first + (last - first) / 2) (last - 1))
    (first + 1) last first

/-- The function `__push_heap`. -/
def pushHeap : Nat → List Tick → Nat → Nat → Nat → Tick → List Tick
  | 0, v, first, holeIndex, _, value => v.set (first + holeIndex) value
  | fuel + 1, v, first, holeIndex, topIndex, value =>
    if decide (holeIndex > topIndex) &&
        Comparator (elemAt v (first + (holeIndex - 1) / 2)) value then
      pushHeap fuel (v.set (first + holeIndex) (elemAt v (first + (holeIndex - 1) / 2)))
        first ((holeIndex - 1) / 2) topIndex value
    else v.set (first + holeIndex) value

/-- The first loop of `__adjust_heap`: the range, `__holeIndex` and
`__secondChild` after it. -/
def adjustHeapDown : Nat → List Tick → Nat → Nat → Nat → Nat → List Tick × Nat × Nat
  | 0, v, _, holeIndex, secondChild, _ => (v, holeIndex, secondChild)
  | fuel + 1, v, first, holeIndex, secondChild, len =>
    if secondChild < (len - 1) / 2 then
      if Comparator (elemAt v (first + 2 * (secondChild + 1)))
          (elemAt v (first + (2 * (secondChild + 1) - 1))) then
        adjustHeapDown fuel
          (v.set (first + holeIndex) (elemAt v (first + (2 * (secondChild + 1) - 1))))
          first (2 * (secondChild + 1) - 1) (2 * (secondChild + 1) - 1) len
      else
        adjustHeapDown fuel
          (v.set (first + holeIndex) (elemAt v (first + 2 * (secondChild + 1))))
          first (2 * (secondChild + 1)) (2 * (secondChild + 1)) len
    else (v, holeIndex, secondChild)

/-- The function `__adjust_heap`. The test `__secondChild == (__len - 2) / 2` is
on signed numbers, so it fails for `__len < 2`. -/
def adjustHeap (v : List Tick) (first holeIndex len : Nat) (value : Tick) : List Tick :=
  match adjustHeapDown len v first holeIndex holeIndex len with
  | (v1, holeIndex1, secondChild1) =>
    if len % 2 = 0 ∧ 2 ≤ len ∧ secondChild1 = (len - 2) / 2 then
      pushHeap len
        (v1.set (first + holeIndex1) (elemAt v1 (first + (2 * (secondChild1 + 1) - 1))))
        first (2 * (secondChild1 + 1) - 1) holeIndex value
    else pushHeap len v1 first holeIndex1 holeIndex value

/-- The function `__pop_heap`. -/
def popHeap (v : List Tick) (first last result : Nat) : List Tick :=
  adjustHeap (v.set result (elemAt v first)) first 0 (last - first) (elemAt v result)

/-- The loop of `__make_heap`, from `__parent` down to 0. -/
def makeHeapLoop : Nat → List Tick → Nat → Nat → List Tick
  | 0, v, first, len => adjustHeap v first 0 len (elemAt v first)
  | parent + 1, v, first, len =>
    makeHeapLoop parent (adjustHeap v first (parent + 1) len (elemAt v (first + (parent + 1))))
      first len

/-- The function `__make_heap`. -/
def makeHeap (v : List Tick) (first last : Nat) : List Tick :=
  if last - first < 2 then v else makeHeapLoop ((last - first - 2) / 2) v first (last - first)

/-- The loop of `__heap_select` over `__i` from `__middle` to `__last`. -/
def heapSelectLoop : Nat → List Tick → Nat → Nat → Nat → Nat → List Tick
  | 0, v, _, _, _, _ => v
  | fuel + 1, v, first, middle, i, last =>
    if i < last then
      if Comparator (elemAt v i) (elemAt v first) then
        heapSelectLoop fuel (popHeap v first middle i) first middle (i + 1) last
      else heapSelectLoop fuel v first middle (i + 1) last
    else v

/-- The function `__sort_heap`. -/
def sortHeap : Nat → List Tick → Nat → Nat → List Tick
  | 0, v, _, _ => v
  | fuel + 1, v, first, last =>
    if last - first > 1 then sortHeap fuel (popHeap v first (last - 1) (last - 1)) first (last - 1)
    else v

/-- The function `__partial_sort`. -/
def partialSort (v : List Tick) (first middle last : Nat) : List Tick :=
  sortHeap v.length (heapSelectLoop v.length (makeHeap v first middle) first middle middle last)
    first middle

/-- The function `__introsort_loop`; the recursion is on `__depth_limit`, which
every turn of the loop lowers by one. -/
def introsortLoop : Nat → List Tick → Nat → Nat → List Tick
  | 0, v, first, last => if last - first > 16 then partialSort v first last last else v
  | depth_limit + 1, v, first, last =>
    if last - first > 16 then
      introsortLoop depth_limit
        (introsortLoop depth_limit (unguardedPartitionPivot v first last).1
          (unguardedPartitionPivot v first last).2 last)
        first (unguardedPartitionPivot v first last).2
    else v

/-- The function `__unguarded_linear_insert` at `__last`, with `__val` taken
out of the range before the loop. -/
def unguardedLinearInsert : Nat → List Tick → Tick → Nat → List Tick
  | 0, v, val, last => v.set last val
  | fuel + 1, v, val, last =>
    if Comparator val (elemAt v (last - 1)) then
      unguardedLinearInsert fuel (v.set last (elemAt v (last - 1))) val (last - 1)
    else v.set last val

/-- The loop of `__insertion_sort` over `__i` up to `__last`. -/
def insertionSortLoop : Nat → List Tick → Nat → Nat → Nat → List Tick
  | 0, v, _, _, _ => v
  | fuel + 1, v, first, i, last =>
    if i ≠ last then
      if Comparator (elemAt v i) (elemAt v first) then
        insertionSortLoop fuel
          (v.take first ++ [elemAt v i] ++ (v.drop first).take (i - first) ++ v.drop (i + 1))
          first (i + 1) last
      else
        insertionSortLoop fuel (unguardedLinearInsert v.length v (elemAt v i) i)
          first (i + 1) last
    else v

/-- The function `__insertion_sort`. -/
def insertionSort (v : List Tick) (first last : Nat) : List Tick :=
  if first = last then v else insertionSortLoop (last - first) v first (first + 1) last

/-- The function `__unguarded_insertion_sort`. -/
def unguardedInsertionSort : Nat → List Tick → Nat → Nat → List Tick
  | 0, v, _, _ => v
  | fuel + 1, v, i, last =>
    if i ≠ last then
      unguardedInsertionSort fuel (unguardedLinearInsert v.length v (elemAt v i) i) (i + 1) last
    else v

/-- The function `__final_insertion_sort`, with `_S_threshold = 16`. -/
def finalInsertionSort (v : List Tick) (first last : Nat) : List Tick :=
  if last - first > 16 then
    unguardedInsertionSort (last - first) (insertionSort v first (first + 16)) (first + 16) last
  else insertionSort v first last

/-- The function `__lg`: the position of the highest set bit. -/
def lg : Nat → Nat → Nat
  | 0, _ => 0
  | fuel + 1, n => if n < 2 then 0 else lg fuel (n / 2) + 1

/-- The function `std::sort(first, last, Comparator())` on the whole vector. -/
def std_sort (v : List Tick) : List Tick :=
  if v.length = 0 then v
  else finalInsertionSort (introsortLoop (lg v.length v.length * 2) v 0 v.length) 0 v.length

/-- The collection of 17 valid records with sequence number 1 and quantities
1, 2, ..., 17. -/
def seventeenOnes : List Tick :=
  (List.range 17).map (fun (i : Nat) => tickWith 1 ((i : Int) + 1))

/-! ## Decoding lemmas -/

theorem or_bytes (a b c d : Byte) :
    a.val <<< 24 ||| b.val <<< 16 ||| c.val <<< 8 ||| d.val
      = a.val * 2 ^ 24 + b.val * 2 ^ 16 + c.val * 2 ^ 8 + d.val := by
  have ha := a.isLt
  have hb := b.isLt
  have hc := c.isLt
  have hd := d.isLt
  have h1 : 2 ^ 8 * c.val + d.val = 2 ^ 8 * c.val ||| d.val :=
    Nat.mul_add_lt_is_or (by omega) _
  have h2 : 2 ^ 16 * b.val + (2 ^ 8 * c.val + d.val)
      = 2 ^ 16 * b.val ||| (2 ^ 8 * c.val + d.val) :=
    Nat.mul_add_lt_is_or (by omega) _
  have h3 : 2 ^ 24 * a.val + (2 ^ 16 * b.val + (2 ^ 8 * c.val + d.val))
      = 2 ^ 24 * a.val ||| (2 ^ 16 * b.val + (2 ^ 8 * c.val + d.val)) :=
    Nat.mul_add_lt_is_or (by omega) _
  rw [Nat.shiftLeft_eq, Nat.shiftLeft_eq, Nat.shiftLeft_eq, Nat.or_assoc, Nat.or_assoc,
    Nat.mul_comm a.val, Nat.mul_comm b.val, Nat.mul_comm c.val, ← h1, ← h2, ← h3]
  omega

theorem int32_be (a b c d : Byte) :
    int32 (a.val <<< 24 ||| b.val <<< 16 ||| c.val <<< 8 ||| d.val) = beSigned32 a b c d := by
  have ha := a.isLt
  have hb := b.isLt
  have hc := c.isLt
  have hd := d.isLt
  rw [or_bytes]
  unfold int32 beSigned32
  have hlt : a.val * 2 ^ 24 + b.val * 2 ^ 16 + c.val * 2 ^ 8 + d.val < 2 ^ 32 := by omega
  rw [Nat.mod_eq_of_lt hlt]
  split <;> split <;> first | rfl | omega

theorem rd_eq (b : List Byte) (i : Nat) (h : i < b.length) : rd b i = b[i] := by
  unfold rd
  exact List.getD_eq_getElem b 0 h

theorem decodeTick_eq (b : List Byte) (s : Nat) (h : s + 17 ≤ b.length) :
    decodeTick b s =
      { symbol0 := toChar b[s]
        symbol1 := toChar b[s + 1]
        symbol2 := toChar b[s + 2]
        symbol3 := toChar b[s + 3]
        buysell_indicator := toChar b[s + 4]
        quantity := beSigned32 b[s + 5] b[s + 6] b[s + 7] b[s + 8]
        price := beSigned32 b[s + 9] b[s + 10] b[s + 11] b[s + 12]
        packet_sequence := beSigned32 b[s + 13] b[s + 14] b[s + 15] b[s + 16] } := by
  unfold decodeTick byteToBuySellIndicator byteToQuantity byteToPrice byteToPacketSequence
  simp only [int32_be]
  rw [rd_eq b s (by omega), rd_eq b (s + 1) (by omega), rd_eq b (s + 2) (by omega),
    rd_eq b (s + 3) (by omega), rd_eq b (s + 4) (by omega), rd_eq b (s + 5) (by omega),
    rd_eq b (s + 6) (by omega), rd_eq b (s + 7) (by omega), rd_eq b (s + 8) (by omega),
    rd_eq b (s + 9) (by omega), rd_eq b (s + 10) (by omega), rd_eq b (s + 11) (by omega),
    rd_eq b (s + 12) (by omega), rd_eq b (s + 13) (by omega), rd_eq b (s + 14) (by omega),
    rd_eq b (s + 15) (by omega), rd_eq b (s + 16) (by omega)]

/-- C1. Decoding is a total function of the buffer and the offset, and when
bytes `s..s+16` are available the record has symbol = the characters
`b[s..s+3]`, side = the character `b[s+4]`, and quantity, price, sequence = the
two's-complement value of the big-endian groups `b[s+5..s+8]`, `b[s+9..s+12]`,
`b[s+13..s+16]`. -/
theorem decodeTick_fields (b : List Byte) (s : Nat) (h : s + 17 ≤ b.length) :
    decodeTick b s =
      { symbol0 := toChar b[s]
        symbol1 := toChar b[s + 1]
        symbol2 := toChar b[s + 2]
        symbol3 := toChar b[s + 3]
        buysell_indicator := toChar b[s + 4]
        quantity := beSigned32 b[s + 5] b[s + 6] b[s + 7] b[s + 8]
        price := beSigned32 b[s + 9] b[s + 10] b[s + 11] b[s + 12]
        packet_sequence := beSigned32 b[s + 13] b[s + 14] b[s + 15] b[s + 16] } := by
  exact decodeTick_eq b s h

/-- C1, at the frame of record 3. -/
theorem decodeTick_fields_witness :
    0 + 17 ≤ (frame 3).length ∧ decodeTick (frame 3) 0 = tickOf 3 :=
  ⟨by decide, (decodeTick_fields (frame 3) 0 (by decide)).trans (by decide)⟩

/-! ## Validation -/

theorem tickIntegrityCheck_eq_true_iff (t : Tick) :
    tickIntegrityCheck t = true ↔
      ((65 ≤ t.symbol0 ∧ t.symbol0 ≤ 90) ∧ (65 ≤ t.symbol1 ∧ t.symbol1 ≤ 90) ∧
        (65 ≤ t.symbol2 ∧ t.symbol2 ≤ 90) ∧ (65 ≤ t.symbol3 ∧ t.symbol3 ≤ 90)) ∧
      (t.buysell_indicator = 66 ∨ t.buysell_indicator = 83) ∧
      0 < t.quantity ∧ 0 < t.price ∧ 0 < t.packet_sequence := by
  unfold tickIntegrityCheck
  constructor
  · intro h
    split_ifs at h with h1 h2 h3 h4 h5
    simp only [Bool.or_eq_true, Bool.not_eq_true', Bool.and_eq_false_imp, decide_eq_true_eq,
      decide_eq_false_iff_not, not_or, Classical.not_imp, not_not, beq_iff_eq,
      Bool.not_eq_true, Bool.or_eq_false_iff, Bool.not_eq_false', gt_iff_lt, ge_iff_le,
      beq_eq_false_iff_ne, ne_eq, not_and] at h1 h2 h3 h4 h5
    refine ⟨⟨h1.1.1.1, h1.1.1.2, h1.1.2, h1.2⟩, ?_, h3, h4, h5⟩
    by_cases hb : t.buysell_indicator = 66
    · exact Or.inl hb
    · exact Or.inr (h2 hb)
  · rintro ⟨⟨⟨a0, b0⟩, ⟨a1, b1⟩, ⟨a2, b2⟩, ⟨a3, b3⟩⟩, hs, hq, hp, hn⟩
    have e0 : (decide (t.symbol0 ≥ 65) && decide (t.symbol0 ≤ 90)) = true := by simp [a0, b0]
    have e1 : (decide (t.symbol1 ≥ 65) && decide (t.symbol1 ≤ 90)) = true := by simp [a1, b1]
    have e2 : (decide (t.symbol2 ≥ 65) && decide (t.symbol2 ≤ 90)) = true := by simp [a2, b2]
    have e3 : (decide (t.symbol3 ≥ 65) && decide (t.symbol3 ≤ 90)) = true := by simp [a3, b3]
    have e4 : (t.buysell_indicator == 66 || t.buysell_indicator == 83) = true := by
      rcases hs with hs | hs <;> simp [hs]
    have e5 : decide (t.quantity > 0) = true := by simp [hq]
    have e6 : decide (t.price > 0) = true := by simp [hp]
    have e7 : decide (t.packet_sequence > 0) = true := by simp [hn]
    rw [e0, e1, e2, e3, e4, e5, e6, e7]
    rfl

/-- C2. `tickIntegrityCheck t` is true exactly when the four symbol characters
are in `'A'..'Z'`, the side is `'B'` or `'S'`, and quantity, price and sequence
are positive; a record that breaks one of the five conditions and meets the
other four is rejected. -/
theorem tickIntegrityCheck_spec (t : Tick) :
    (tickIntegrityCheck t = true ↔
      ((65 ≤ t.symbol0 ∧ t.symbol0 ≤ 90) ∧ (65 ≤ t.symbol1 ∧ t.symbol1 ≤ 90) ∧
        (65 ≤ t.symbol2 ∧ t.symbol2 ≤ 90) ∧ (65 ≤ t.symbol3 ∧ t.symbol3 ≤ 90)) ∧
      (t.buysell_indicator = 66 ∨ t.buysell_indicator = 83) ∧
      0 < t.quantity ∧ 0 < t.price ∧ 0 < t.packet_sequence) ∧
    (¬ ((65 ≤ t.symbol0 ∧ t.symbol0 ≤ 90) ∧ (65 ≤ t.symbol1 ∧ t.symbol1 ≤ 90) ∧
        (65 ≤ t.symbol2 ∧ t.symbol2 ≤ 90) ∧ (65 ≤ t.symbol3 ∧ t.symbol3 ≤ 90)) ∧
      (t.buysell_indicator = 66 ∨ t.buysell_indicator = 83) ∧
      0 < t.quantity ∧ 0 < t.price ∧ 0 < t.packet_sequence →
        tickIntegrityCheck t = false) ∧
    (((65 ≤ t.symbol0 ∧ t.symbol0 ≤ 90) ∧ (65 ≤ t.symbol1 ∧ t.symbol1 ≤ 90) ∧
        (65 ≤ t.symbol2 ∧ t.symbol2 ≤ 90) ∧ (65 ≤ t.symbol3 ∧ t.symbol3 ≤ 90)) ∧
      ¬ (t.buysell_indicator = 66 ∨ t.buysell_indicator = 83) ∧
      0 < t.quantity ∧ 0 < t.price ∧ 0 < t.packet_sequence →
        tickIntegrityCheck t = false) ∧
    (((65 ≤ t.symbol0 ∧ t.symbol0 ≤ 90) ∧ (65 ≤ t.symbol1 ∧ t.symbol1 ≤ 90) ∧
        (65 ≤ t.symbol2 ∧ t.symbol2 ≤ 90) ∧ (65 ≤ t.symbol3 ∧ t.symbol3 ≤ 90)) ∧
      (t.buysell_indicator = 66 ∨ t.buysell_indicator = 83) ∧
      ¬ 0 < t.quantity ∧ 0 < t.price ∧ 0 < t.packet_sequence →
        tickIntegrityCheck t = false) ∧
    (((65 ≤ t.symbol0 ∧ t.symbol0 ≤ 90) ∧ (65 ≤ t.symbol1 ∧ t.symbol1 ≤ 90) ∧
        (65 ≤ t.symbol2 ∧ t.symbol2 ≤ 90) ∧ (65 ≤ t.symbol3 ∧ t.symbol3 ≤ 90)) ∧
      (t.buysell_indicator = 66 ∨ t.buysell_indicator = 83) ∧
      0 < t.quantity ∧ ¬ 0 < t.price ∧ 0 < t.packet_sequence →
        tickIntegrityCheck t = false) ∧
    (((65 ≤ t.symbol0 ∧ t.symbol0 ≤ 90) ∧ (65 ≤ t.symbol1 ∧ t.symbol1 ≤ 90) ∧
        (65 ≤ t.symbol2 ∧ t.symbol2 ≤ 90) ∧ (65 ≤ t.symbol3 ∧ t.symbol3 ≤ 90)) ∧
      (t.buysell_indicator = 66 ∨ t.buysell_indicator = 83) ∧
      0 < t.quantity ∧ 0 < t.price ∧ ¬ 0 < t.packet_sequence →
        tickIntegrityCheck t = false) := by
  have key := tickIntegrityCheck_eq_true_iff t
  refine ⟨key, ?_, ?_, ?_, ?_, ?_⟩
  · intro h
    rw [← Bool.not_eq_true, key]
    exact fun hk => h.1 hk.1
  · intro h
    rw [← Bool.not_eq_true, key]
    exact fun hk => h.2.1 hk.2.1
  · intro h
    rw [← Bool.not_eq_true, key]
    exact fun hk => h.2.2.1 hk.2.2.1
  · intro h
    rw [← Bool.not_eq_true, key]
    exact fun hk => h.2.2.2.1 hk.2.2.2.1
  · intro h
    rw [← Bool.not_eq_true, key]
    exact fun hk => h.2.2.2.2 hk.2.2.2.2

theorem toChar_range (b : Byte) :
    (65 ≤ toChar b ∧ toChar b ≤ 90) ↔ (65 ≤ b.val ∧ b.val ≤ 90) := by
  unfold toChar
  have := b.isLt
  split <;> omega

theorem toChar_eq_iff (b : Byte) (k : Nat) (hk : k < 128) :
    toChar b = (k : Int) ↔ b.val = k := by
  unfold toChar
  have := b.isLt
  split <;> omega

theorem beSigned32_pos (a b c d : Byte) :
    0 < beSigned32 a b c d ↔ (1 ≤ beUnsigned a b c d ∧ beUnsigned a b c d ≤ 2 ^ 31 - 1) := by
  unfold beSigned32 beUnsigned
  have := a.isLt
  have := b.isLt
  have := c.isLt
  have := d.isLt
  split <;> omega

theorem beUnsigned_top (a b c d : Byte) (h : 128 ≤ a.val) :
    ¬ beUnsigned a b c d ≤ 2 ^ 31 - 1 := by
  unfold beUnsigned
  omega

theorem decode_validate_iff (w : List Byte) (hw : w.length = 17) :
    tickIntegrityCheck (decodeTick w 0) = true ↔
      ((65 ≤ w[0].val ∧ w[0].val ≤ 90) ∧ (65 ≤ w[1].val ∧ w[1].val ≤ 90) ∧
        (65 ≤ w[2].val ∧ w[2].val ≤ 90) ∧ (65 ≤ w[3].val ∧ w[3].val ≤ 90)) ∧
      (w[4].val = 66 ∨ w[4].val = 83) ∧
      (1 ≤ beUnsigned w[5] w[6] w[7] w[8] ∧ beUnsigned w[5] w[6] w[7] w[8] ≤ 2 ^ 31 - 1) ∧
      (1 ≤ beUnsigned w[9] w[10] w[11] w[12] ∧
        beUnsigned w[9] w[10] w[11] w[12] ≤ 2 ^ 31 - 1) ∧
      (1 ≤ beUnsigned w[13] w[14] w[15] w[16] ∧
        beUnsigned w[13] w[14] w[15] w[16] ≤ 2 ^ 31 - 1) := by
  rw [decodeTick_eq w 0 (by omega), tickIntegrityCheck_eq_true_iff]
  simp only [Nat.zero_add, toChar_range, beSigned32_pos]
  rw [show (66 : Int) = ((66 : Nat) : Int) from rfl, show (83 : Int) = ((83 : Nat) : Int) from rfl,
    toChar_eq_iff _ 66 (by omega), toChar_eq_iff _ 83 (by omega)]

/-- C3. Decoding a 17-byte window and validating the result gives true exactly
when bytes 0..3 are in `0x41..0x5A`, byte 4 is `0x42` or `0x53`, and each of the
groups 5..8, 9..12, 13..16, read as an unsigned big-endian number, is in
`1..2^31-1`; so a window is rejected when the first byte of a group has its top
bit set, or when a symbol or side byte is `0x80` or more. -/
theorem decode_validate_spec (w : List Byte) (hw : w.length = 17) :
    (tickIntegrityCheck (decodeTick w 0) = true ↔
      ((0x41 ≤ w[0].val ∧ w[0].val ≤ 0x5A) ∧ (0x41 ≤ w[1].val ∧ w[1].val ≤ 0x5A) ∧
        (0x41 ≤ w[2].val ∧ w[2].val ≤ 0x5A) ∧ (0x41 ≤ w[3].val ∧ w[3].val ≤ 0x5A)) ∧
      (w[4].val = 0x42 ∨ w[4].val = 0x53) ∧
      (1 ≤ beUnsigned w[5] w[6] w[7] w[8] ∧ beUnsigned w[5] w[6] w[7] w[8] ≤ 2 ^ 31 - 1) ∧
      (1 ≤ beUnsigned w[9] w[10] w[11] w[12] ∧
        beUnsigned w[9] w[10] w[11] w[12] ≤ 2 ^ 31 - 1) ∧
      (1 ≤ beUnsigned w[13] w[14] w[15] w[16] ∧
        beUnsigned w[13] w[14] w[15] w[16] ≤ 2 ^ 31 - 1)) ∧
    ((0x80 ≤ w[5].val ∨ 0x80 ≤ w[9].val ∨ 0x80 ≤ w[13].val ∨ 0x80 ≤ w[0].val ∨
        0x80 ≤ w[1].val ∨ 0x80 ≤ w[2].val ∨ 0x80 ≤ w[3].val ∨ 0x80 ≤ w[4].val) →
      tickIntegrityCheck (decodeTick w 0) = false) := by
  have key := decode_validate_iff w hw
  refine ⟨key, ?_⟩
  intro h
  rw [← Bool.not_eq_true, key]
  rintro ⟨⟨h0, h1, h2, h3⟩, h4, ⟨_, h5⟩, ⟨_, h9⟩, ⟨_, h13⟩⟩
  rcases h with h | h | h | h | h | h | h | h
  · exact beUnsigned_top _ _ _ _ h h5
  · exact beUnsigned_top _ _ _ _ h h9
  · exact beUnsigned_top _ _ _ _ h h13
  all_goals omega

/-- C3, at the frame of record 3, which is accepted. -/
theorem decode_validate_spec_witness :
    (frame 3).length = 17 ∧ tickIntegrityCheck (decodeTick (frame 3) 0) = true :=
  ⟨by decide, (decode_validate_spec (frame 3) (by decide)).1.2 (by decide)⟩

/-! ## The gap loop and the extraction loop -/

theorem seqRange_of_le (e q : Int) (h : q ≤ e) : seqRange e q = [] := by
  unfold seqRange
  have : (q - e).toNat = 0 := by omega
  rw [this]
  rfl

theorem seqRange_cons (e q : Int) (h : e < q) : seqRange e q = e :: seqRange (e + 1) q := by
  unfold seqRange
  have h1 : (q - e).toNat = (q - (e + 1)).toNat + 1 := by omega
  rw [h1, List.range_succ_eq_map, List.map_cons, List.map_map]
  congr 1
  · simp
  · apply List.map_congr_left
    intro i _
    simp only [Function.comp_apply, Nat.cast_succ]
    omega

theorem mem_seqRange (e q n : Int) : n ∈ seqRange e q ↔ e ≤ n ∧ n < q := by
  unfold seqRange
  simp only [List.mem_map, List.mem_range]
  constructor
  · rintro ⟨i, hi, rfl⟩
    omega
  · rintro ⟨h1, h2⟩
    refine ⟨(n - e).toNat, by omega, by omega⟩

theorem intWrap_eq (x : Int) (h1 : -2 ^ 31 ≤ x) (h2 : x ≤ 2 ^ 31 - 1) : intWrap x = x := by
  unfold intWrap
  omega

theorem pushMissed_eq (fuel : Nat) (e q : Int) (m : List Int) (h : missedFuel e q ≤ fuel)
    (hlo : -2 ^ 31 ≤ e) (hq : q ≤ 2 ^ 31 - 1) :
    pushMissed fuel e q m = (max e q, (seqRange e q).reverse ++ m) := by
  unfold missedFuel at h
  induction fuel generalizing e m with
  | zero =>
    have hle : q ≤ e := by omega
    simp [pushMissed, seqRange_of_le e q hle, max_eq_left hle]
  | succ k ih =>
    unfold pushMissed
    by_cases hlt : e < q
    · rw [if_pos hlt, intWrap_eq (e + 1) (by omega) (by omega),
        ih (e + 1) (e :: m) (by omega) (by omega), seqRange_cons e q hlt]
      have h1 : max (e + 1) q = max e q := by omega
      simp [h1]
    · have hle : q ≤ e := by omega
      rw [if_neg hlt, seqRange_of_le e q hle, max_eq_left hle]
      rfl

theorem track_eq (e q : Int) (m : List Int) (hlo : -2 ^ 31 ≤ e) (hq : q ≤ 2 ^ 31 - 1) :
    track (e, m) q = (intWrap (observe (e, m) q).1, (observe (e, m) q).2) := by
  unfold track observe
  by_cases hne : q ≠ e
  · simp only [if_pos hne]
    rw [pushMissed_eq _ _ _ _ (le_refl _) hlo hq]
  · have heq : q = e := not_not.mp hne
    simp only [if_neg hne]
    rw [heq, seqRange_of_le _ _ (le_refl _), max_self]
    rfl

theorem processTick_valid (t : Tick) (b : Bulk) (h : tickIntegrityCheck t = true) :
    processTick t b = .running
      { g := { tick_vector := b.g.tick_vector ++ [t]
               missed_packets := (track (b.seq_num, b.g.missed_packets) t.packet_sequence).2 }
        seq_num := (track (b.seq_num, b.g.missed_packets) t.packet_sequence).1 } := by
  unfold processTick track
  rw [if_pos h]

theorem processTick_invalid (t : Tick) (b : Bulk) (h : tickIntegrityCheck t = false) :
    processTick t b = .exited b.g := by
  unfold processTick
  simp [h]

theorem processTicks_append (ts us : List Tick) (b : Bulk) :
    processTicks (ts ++ us) b =
      match processTicks ts b with
      | .running b1 => processTicks us b1
      | .exited g => .exited g := by
  induction ts generalizing b with
  | nil => rfl
  | cons t ts ih =>
    simp only [List.cons_append, processTicks]
    cases processTick t b with
    | running b1 => exact ih b1
    | exited g => rfl

theorem extractLoop_eq (fuel : Nat) (buf : List Byte) (size start : Nat) (b : Bulk)
    (h : size / 17 ≤ fuel) :
    extractLoop fuel buf size start b =
      processTicks ((List.range (size / 17)).map (fun i => decodeTick buf (start + 17 * i))) b := by
  induction fuel generalizing size start b with
  | zero =>
    have h0 : size / 17 = 0 := by omega
    rw [h0]
    rfl
  | succ k ih =>
    unfold extractLoop
    by_cases hs : size ≥ 17
    · have h1 : size / 17 = (size - 17) / 17 + 1 := by omega
      rw [if_pos hs, h1, List.range_succ_eq_map, List.map_cons, List.map_map]
      simp only [processTicks, Nat.mul_zero, Nat.add_zero]
      cases processTick (decodeTick buf start) b with
      | running b1 =>
        simp only
        rw [ih (size - 17) (start + 17) b1 (by omega)]
        congr 1
        apply List.map_congr_left
        intro i _
        simp only [Function.comp_apply]
        congr 1
        omega
      | exited g => rfl
    · have h0 : size / 17 = 0 := by omega
      rw [if_neg hs, h0]
      rfl

theorem rd_recvInto (buf bytes : List Byte) (i : Nat) (h : i < bytes.length) :
    rd (recvInto buf bytes) i = rd bytes i := by
  unfold rd recvInto
  rw [List.getD_append _ _ _ _ h]

theorem decodeTick_recvInto (buf bytes : List Byte) (s : Nat) (h : s + 17 ≤ bytes.length) :
    decodeTick (recvInto buf bytes) s = decodeTick bytes s := by
  unfold decodeTick byteToBuySellIndicator byteToQuantity byteToPrice byteToPacketSequence
  rw [rd_recvInto buf bytes s (by omega), rd_recvInto buf bytes (s + 1) (by omega),
    rd_recvInto buf bytes (s + 2) (by omega), rd_recvInto buf bytes (s + 3) (by omega),
    rd_recvInto buf bytes (s + 4) (by omega), rd_recvInto buf bytes (s + 5) (by omega),
    rd_recvInto buf bytes (s + 6) (by omega), rd_recvInto buf bytes (s + 7) (by omega),
    rd_recvInto buf bytes (s + 8) (by omega), rd_recvInto buf bytes (s + 9) (by omega),
    rd_recvInto buf bytes (s + 10) (by omega), rd_recvInto buf bytes (s + 11) (by omega),
    rd_recvInto buf bytes (s + 12) (by omega), rd_recvInto buf bytes (s + 13) (by omega),
    rd_recvInto buf bytes (s + 14) (by omega), rd_recvInto buf bytes (s + 15) (by omega),
    rd_recvInto buf bytes (s + 16) (by omega)]

theorem extractLoop_recv (buf bytes : List Byte) (b : Bulk) :
    extractLoop bytes.length (recvInto buf bytes) bytes.length 0 b
      = processTicks (windows bytes) b := by
  rw [extractLoop_eq _ _ _ _ _ (Nat.div_le_self _ _)]
  unfold windows
  congr 1
  apply List.map_congr_left
  intro i hi
  rw [List.mem_range] at hi
  rw [Nat.zero_add]
  apply decodeTick_recvInto
  have := Nat.div_mul_le_self bytes.length 17
  have h2 : (i + 1) * 17 ≤ bytes.length / 17 * 17 := Nat.mul_le_mul_right 17 hi
  omega

theorem recvLoop_eq (reads : List Recv) (buf : List Byte) (b : Bulk) :
    recvLoop reads buf b =
      match processTicks (sessionTicks reads) b with
      | .running b1 => .running { g := b1.g, seq_num := b1.seq_num, ending := endingOf b1 }
      | .exited g => .exited g := by
  induction reads generalizing buf b with
  | nil => rfl
  | cons r rest ih =>
    cases r with
    | error => rfl
    | data bytes =>
      unfold recvLoop sessionTicks
      by_cases h0 : bytes.length = 0
      · rw [if_pos h0, if_pos h0]
        rfl
      · rw [if_neg h0, if_neg h0, extractLoop_recv, processTicks_append]
        cases processTicks (windows bytes) b with
        | running b1 => exact ih _ b1
        | exited g => rfl

theorem runAll_connected (s : AllSession) (g : Globals) (h1 : s.WSA_ok = true)
    (h2 : s.connect_ok = true) (h3 : s.send_ok = true) :
    runAll s g =
      match processTicks (sessionTicks s.reads) { g := g, seq_num := 1 } with
      | .running b1 => .running { g := b1.g, seq_num := b1.seq_num, ending := endingOf b1 }
      | .exited g1 => .exited g1 := by
  unfold runAll sendAllPacketsRequest ClientApplication.init
  simp only [h1, h2, h3, Bool.not_true, Bool.false_eq_true, if_false, Bool.or_self]
  exact recvLoop_eq _ _ _

/-! ## The gap tracker on a bulk transfer -/

theorem processTicks_valid (ts : List Tick) (b : Bulk)
    (h : ∀ t ∈ ts, tickIntegrityCheck t = true) :
    processTicks ts b = .running
      { g := { tick_vector := b.g.tick_vector ++ ts
               missed_packets := (trackAll (b.seq_num, b.g.missed_packets) (seqs ts)).2 }
        seq_num := (trackAll (b.seq_num, b.g.missed_packets) (seqs ts)).1 } := by
  induction ts generalizing b with
  | nil => simp [processTicks, trackAll, seqs]
  | cons t ts ih =>
    unfold processTicks
    rw [processTick_valid t b (h t (List.mem_cons_self _ _))]
    simp only
    rw [ih _ (fun u hu => h u (List.mem_cons_of_mem _ hu))]
    simp [trackAll, seqs]

theorem seqRange_append (e k q : Int) (h1 : e ≤ k) (h2 : k ≤ q) :
    seqRange e q = seqRange e k ++ seqRange k q := by
  obtain ⟨n, hn⟩ : ∃ n : Nat, (k - e).toNat = n := ⟨_, rfl⟩
  induction n generalizing e with
  | zero =>
    have : k = e := by omega
    subst this
    rw [seqRange_of_le k k (le_refl _)]
    rfl
  | succ n ih =>
    have hlt : e < k := by omega
    rw [seqRange_cons e q (by omega), seqRange_cons e k hlt, ih (e + 1) (by omega) (by omega)]
    rfl

theorem observeAll_increasing (qs : List Int) (e : Int) (m : List Int)
    (hinc : qs.Pairwise (· < ·)) (hlo : ∀ q ∈ qs, e ≤ q) :
    (observeAll (e, m) qs).2 =
        ((seqRange e (observeAll (e, m) qs).1).filter (fun n => decide (n ∉ qs))).reverse ++ m ∧
      e ≤ (observeAll (e, m) qs).1 ∧
      (qs = [] → (observeAll (e, m) qs).1 = e) ∧
      (∀ pre k, qs = pre ++ [k] → (observeAll (e, m) qs).1 = k + 1) := by
  induction qs generalizing e m with
  | nil =>
    refine ⟨?_, le_refl _, fun _ => rfl, ?_⟩
    · simp [observeAll, seqRange_of_le e e (le_refl _)]
    · intro pre k hk
      simp at hk
  | cons q rest ih =>
    have heq : e ≤ q := hlo q (List.mem_cons_self _ _)
    have hrest : ∀ x ∈ rest, q < x := (List.pairwise_cons.mp hinc).1
    have hstep : observeAll (e, m) (q :: rest)
        = observeAll (q + 1, (seqRange e q).reverse ++ m) rest := by
      simp [observeAll, observe, max_eq_right heq]
    obtain ⟨ih1, ih2, ih3, ih4⟩ := ih (q + 1) ((seqRange e q).reverse ++ m)
      (List.pairwise_cons.mp hinc).2 (fun x hx => by have := hrest x hx; omega)
    rw [hstep]
    generalize (observeAll (q + 1, (seqRange e q).reverse ++ m) rest) = r at ih1 ih2 ih3 ih4
    refine ⟨?_, by omega, fun hnil => by simp at hnil, ?_⟩
    · rw [ih1, seqRange_append e q r.1 heq (by omega), seqRange_cons q r.1 (by omega),
        List.filter_append, List.filter_cons]
      have hq : decide (q ∉ q :: rest) = false := by simp
      rw [hq]
      have hA : (seqRange e q).filter (fun n => decide (n ∉ q :: rest)) = seqRange e q := by
        rw [List.filter_eq_self]
        intro x hx
        rw [mem_seqRange] at hx
        simp only [List.mem_cons, not_or, decide_eq_true_eq]
        refine ⟨by omega, fun hin => ?_⟩
        have := hrest x hin
        omega
      have hB : (seqRange (q + 1) r.1).filter (fun n => decide (n ∉ q :: rest))
          = (seqRange (q + 1) r.1).filter (fun n => decide (n ∉ rest)) := by
        apply List.filter_congr
        intro x hx
        rw [mem_seqRange] at hx
        have hne : x ≠ q := by omega
        simp [hne]
      rw [hA, hB]
      simp
    · intro pre k hk
      cases pre with
      | nil =>
        simp only [List.nil_append, List.cons.injEq] at hk
        rw [ih3 hk.2, hk.1]
      | cons p pre1 =>
        simp only [List.cons_append, List.cons.injEq] at hk
        exact ih4 pre1 k hk.2

theorem seqRange_nodup (e q : Int) : (seqRange e q).Nodup := by
  unfold seqRange
  apply List.Nodup.map _ (List.nodup_range _)
  intro a b hab
  simpa using hab

theorem seqRange_sorted (e q : Int) : (seqRange e q).Pairwise (· < ·) := by
  unfold seqRange
  rw [List.pairwise_map]
  apply List.Pairwise.imp _ (List.pairwise_lt_range _)
  intro a b hab
  omega

theorem mem_missing (received : List Int) (m n : Int) :
    n ∈ missing received m ↔ (1 ≤ n ∧ n ≤ m ∧ n ∉ received) := by
  unfold missing
  simp only [List.mem_reverse, List.mem_filter, mem_seqRange, decide_eq_true_eq]
  constructor
  · rintro ⟨⟨h1, h2⟩, h3⟩
    exact ⟨h1, by omega, h3⟩
  · rintro ⟨h1, h2, h3⟩
    exact ⟨⟨h1, by omega⟩, h3⟩

theorem missing_nodup (received : List Int) (m : Int) : (missing received m).Nodup := by
  unfold missing
  rw [List.nodup_reverse]
  exact (seqRange_nodup _ _).filter _

theorem valid_seq_pos (t : Tick) (h : tickIntegrityCheck t = true) : 1 ≤ t.packet_sequence := by
  have := ((tickIntegrityCheck_eq_true_iff t).mp h).2.2.2.2
  omega

theorem observeAll_fst_ge (qs : List Int) (e : Int) (m : List Int) :
    e ≤ (observeAll (e, m) qs).1 := by
  induction qs generalizing e m with
  | nil => exact le_refl _
  | cons q rest ih =>
    have hstep : observeAll (e, m) (q :: rest)
        = observeAll (max e q + 1, (seqRange e q).reverse ++ m) rest := rfl
    rw [hstep]
    have := ih (max e q + 1) ((seqRange e q).reverse ++ m)
    omega

theorem observeAll_fst_gt (q : Int) (rest : List Int) (e : Int) (m : List Int) :
    max e q < (observeAll (e, m) (q :: rest)).1 := by
  have hstep : observeAll (e, m) (q :: rest)
      = observeAll (max e q + 1, (seqRange e q).reverse ++ m) rest := rfl
  rw [hstep]
  have := observeAll_fst_ge rest (max e q + 1) ((seqRange e q).reverse ++ m)
  omega

theorem trackAll_eq (qs : List Int) (e : Int) (m : List Int)
    (hlo : -2 ^ 31 ≤ e) (hhi : e ≤ 2 ^ 31 - 1) (hfit : (observeAll (e, m) qs).1 ≤ 2 ^ 31) :
    trackAll (e, m) qs = (intWrap (observeAll (e, m) qs).1, (observeAll (e, m) qs).2) := by
  induction qs generalizing e m with
  | nil =>
    show (e, m) = (intWrap e, m)
    rw [intWrap_eq e hlo hhi]
  | cons q rest ih =>
    have hstepO : observeAll (e, m) (q :: rest)
        = observeAll (max e q + 1, (seqRange e q).reverse ++ m) rest := rfl
    have hstepT : trackAll (e, m) (q :: rest) = trackAll (track (e, m) q) rest := rfl
    have hgt := observeAll_fst_gt q rest e m
    have hq : q ≤ 2 ^ 31 - 1 := by omega
    have htrack : track (e, m) q = (intWrap (max e q + 1), (seqRange e q).reverse ++ m) :=
      track_eq e q m hlo hq
    rw [hstepT, htrack, hstepO]
    rw [hstepO] at hfit
    cases rest with
    | nil => rfl
    | cons r rest1 =>
      have hgt2 := observeAll_fst_gt r rest1 (max e q + 1) ((seqRange e q).reverse ++ m)
      rw [intWrap_eq (max e q + 1) (by omega) (by omega)]
      exact ih (max e q + 1) _ (by omega) (by omega) hfit

theorem int32_le (u : Nat) : int32 u ≤ 2 ^ 31 - 1 := by
  unfold int32
  split <;> omega

theorem sessionTicks_seq_le (reads : List Recv) :
    ∀ t ∈ sessionTicks reads, t.packet_sequence ≤ 2 ^ 31 - 1 := by
  induction reads with
  | nil =>
    intro t ht
    simp [sessionTicks] at ht
  | cons r rest ih =>
    cases r with
    | error =>
      intro t ht
      simp [sessionTicks] at ht
    | data bytes =>
      intro t ht
      unfold sessionTicks at ht
      split at ht
      · simp at ht
      · rcases List.mem_append.mp ht with h | h
        · unfold windows at h
          rw [List.mem_map] at h
          obtain ⟨i, _, rfl⟩ := h
          exact int32_le _
        · exact ih t h

theorem bulk_increasing (s : AllSession) (g : Globals) (pre : List Int) (sk : Int)
    (h1 : s.WSA_ok = true) (h2 : s.connect_ok = true) (h3 : s.send_ok = true)
    (hvalid : ∀ t ∈ sessionTicks s.reads, tickIntegrityCheck t = true)
    (hseq : seqs (sessionTicks s.reads) = pre ++ [sk])
    (hinc : (pre ++ [sk]).Pairwise (· < ·)) :
    runAll s g = .running
      { g := { tick_vector := g.tick_vector ++ sessionTicks s.reads
               missed_packets := missing (pre ++ [sk]) sk ++ g.missed_packets }
        seq_num := intWrap (sk + 1)
        ending := .completed } := by
  rw [runAll_connected s g h1 h2 h3, processTicks_valid _ _ hvalid]
  have hlo : ∀ q ∈ seqs (sessionTicks s.reads), (1 : Int) ≤ q := by
    intro q hq
    unfold seqs at hq
    rw [List.mem_map] at hq
    obtain ⟨t, ht, rfl⟩ := hq
    exact valid_seq_pos t (hvalid t ht)
  have hsk : sk ≤ 2 ^ 31 - 1 := by
    have hmem : sk ∈ seqs (sessionTicks s.reads) := by
      rw [hseq]
      exact List.mem_append_right _ (List.mem_singleton_self sk)
    unfold seqs at hmem
    rw [List.mem_map] at hmem
    obtain ⟨t, ht, rfl⟩ := hmem
    exact sessionTicks_seq_le s.reads t ht
  have hne : sessionTicks s.reads ≠ [] := by
    intro h0
    rw [h0] at hseq
    simp [seqs] at hseq
  obtain ⟨o1, _, _, o4⟩ := observeAll_increasing (seqs (sessionTicks s.reads)) 1
    g.missed_packets (hseq ▸ hinc) hlo
  have hfin := o4 pre sk hseq
  rw [trackAll_eq (seqs (sessionTicks s.reads)) 1 g.missed_packets (by omega) (by omega)
    (by omega)]
  simp only
  rw [o1, hfin, hseq]
  have hend : endingOf { g := { tick_vector := g.tick_vector ++ sessionTicks s.reads
                                missed_packets := missing (pre ++ [sk]) sk ++ g.missed_packets }
                         seq_num := intWrap (sk + 1) } = .completed := by
    unfold endingOf
    cases hst : sessionTicks s.reads with
    | nil => exact absurd hst hne
    | cons a l => simp
  unfold missing
  exact congrArg _ (by simpa [missing] using hend)

/-- C4 as stated fails: the bulk transfer of the one valid record with sequence
number `2^31 - 1` returns with `seq_num = -2^31`, not `2^31`: the `int` counter
cannot hold `sk + 1` there. -/
theorem bulk_counter_wraps :
    ∃ e, runAll (allOf [.data maxFrame]) ⟨[], []⟩ = .running e ∧
      (∀ t ∈ sessionTicks [.data maxFrame], tickIntegrityCheck t = true) ∧
      seqs (sessionTicks [.data maxFrame]) = [2147483647] ∧
      e.seq_num = -2147483648 ∧ e.seq_num ≠ 2147483647 + 1 := by
  have hvalid : ∀ t ∈ sessionTicks (allOf [.data maxFrame]).reads,
      tickIntegrityCheck t = true := by decide
  have hseq : seqs (sessionTicks (allOf [.data maxFrame]).reads) = [] ++ [2147483647] := by
    decide
  have hrun := bulk_increasing (allOf [.data maxFrame]) ⟨[], []⟩ [] 2147483647 rfl rfl rfl
    hvalid hseq (by decide)
  have hw : intWrap (2147483647 + 1) = -2147483648 := by decide
  refine ⟨_, hrun, hvalid, hseq, hw, ?_⟩
  show intWrap (2147483647 + 1) ≠ 2147483647 + 1
  rw [hw]
  decide

/-- C4, amended. A bulk session that starts with an empty pending set (and
`seq_num = 1`) and processes valid records with strictly increasing sequence
numbers `pre ++ [sk]` returns with the pending set exactly the numbers of
`1..sk` that were not received, each once; and with `seq_num = sk + 1` when
`sk < 2^31 - 1`. -/
theorem bulk_gap_tracking (s : AllSession) (g : Globals) (pre : List Int) (sk : Int)
    (h1 : s.WSA_ok = true) (h2 : s.connect_ok = true) (h3 : s.send_ok = true)
    (hg : g.missed_packets = [])
    (hvalid : ∀ t ∈ sessionTicks s.reads, tickIntegrityCheck t = true)
    (hseq : seqs (sessionTicks s.reads) = pre ++ [sk])
    (hinc : (pre ++ [sk]).Pairwise (· < ·)) :
    ∃ e, runAll s g = .running e ∧
      (∀ n, n ∈ e.g.missed_packets ↔ (1 ≤ n ∧ n ≤ sk ∧ n ∉ pre ++ [sk])) ∧
      e.g.missed_packets.Nodup ∧ (sk < 2 ^ 31 - 1 → e.seq_num = sk + 1) := by
  refine ⟨_, bulk_increasing s g pre sk h1 h2 h3 hvalid hseq hinc, ?_, ?_, ?_⟩
  · intro n
    simp only [hg, List.append_nil]
    exact mem_missing _ _ _
  · simp only [hg, List.append_nil]
    exact missing_nodup _ _
  · intro hsk
    have hpos : (1 : Int) ≤ sk := by
      have hmem : sk ∈ seqs (sessionTicks s.reads) := by
        rw [hseq]
        exact List.mem_append_right _ (List.mem_singleton_self sk)
      unfold seqs at hmem
      rw [List.mem_map] at hmem
      obtain ⟨t, ht, rfl⟩ := hmem
      exact valid_seq_pos t (hvalid t ht)
    exact intWrap_eq (sk + 1) (by omega) (by omega)

/-- C4 amended, on the observed sequence numbers 1, 2, 4: the pending set is
`{3}` and `seq_num` is 5. -/
theorem bulk_gap_tracking_witness :
    (∃ e, runAll (allOf [.data (frame 1 ++ frame 2 ++ frame 4)]) ⟨[], []⟩ = .running e ∧
      (∀ n, n ∈ e.g.missed_packets ↔ (1 ≤ n ∧ n ≤ 4 ∧ n ∉ [1, 2] ++ [(4 : Int)])) ∧
      e.g.missed_packets.Nodup ∧ ((4 : Int) < 2 ^ 31 - 1 → e.seq_num = 4 + 1)) ∧
    runAll (allOf [.data (frame 1 ++ frame 2 ++ frame 4)]) ⟨[], []⟩
      = .running ⟨⟨[tickOf 1, tickOf 2, tickOf 4], [3]⟩, 5, .completed⟩ :=
  ⟨bulk_gap_tracking (allOf [.data (frame 1 ++ frame 2 ++ frame 4)]) ⟨[], []⟩ [1, 2] 4
    rfl rfl rfl rfl (by decide) (by decide) (by decide), by decide⟩

/-- C5 as stated fails: the valid records 2, 1, 4 arrive (1 and 2 swapped, 3
lost); the session returns with collection 2, 1, 4 and pending set `{1}`, so 3,
which is below the largest received number 4, is in neither. -/
theorem bulk_reordered_gap_undetected :
    ∃ e, runAll (allOf [.data (frame 2 ++ frame 1 ++ frame 4)]) ⟨[], []⟩ = .running e ∧
      (∀ t ∈ sessionTicks [.data (frame 2 ++ frame 1 ++ frame 4)],
        tickIntegrityCheck t = true) ∧
      seqs e.g.tick_vector = [2, 1, 4] ∧ e.g.missed_packets = [1] ∧
      ¬ ((∃ t ∈ e.g.tick_vector, t.packet_sequence = 3) ∨ 3 ∈ e.g.missed_packets) :=
  ⟨⟨⟨[tickOf 2, tickOf 1, tickOf 4], [1]⟩, 5, .completed⟩, by decide, by decide, by decide,
    by decide, by decide⟩

/-- C5, amended. When the valid records of a bulk transfer arrive with strictly
increasing sequence numbers `pre ++ [sk]` (whichever records are lost), the
session returns, and every number from 1 to the largest received number `sk` is
the sequence number of a record in the collection or is in the pending set. -/
theorem bulk_covers_up_to_largest (s : AllSession) (g : Globals) (pre : List Int) (sk : Int)
    (h1 : s.WSA_ok = true) (h2 : s.connect_ok = true) (h3 : s.send_ok = true)
    (hvalid : ∀ t ∈ sessionTicks s.reads, tickIntegrityCheck t = true)
    (hseq : seqs (sessionTicks s.reads) = pre ++ [sk])
    (hinc : (pre ++ [sk]).Pairwise (· < ·)) :
    ∃ e, runAll s g = .running e ∧
      ∀ n, 1 ≤ n → n ≤ sk →
        (∃ t ∈ e.g.tick_vector, t.packet_sequence = n) ∨ n ∈ e.g.missed_packets := by
  refine ⟨_, bulk_increasing s g pre sk h1 h2 h3 hvalid hseq hinc, ?_⟩
  intro n hn1 hn2
  by_cases hin : n ∈ pre ++ [sk]
  · left
    rw [← hseq] at hin
    unfold seqs at hin
    rw [List.mem_map] at hin
    obtain ⟨t, ht, hts⟩ := hin
    exact ⟨t, List.mem_append_right _ ht, hts⟩
  · right
    exact List.mem_append_left _ ((mem_missing _ _ _).mpr ⟨hn1, hn2, hin⟩)

/-- C5 amended, on a transfer that delivers 1, 2, 5 and loses 3 and 4. -/
theorem bulk_covers_up_to_largest_witness :
    ∃ e, runAll (allOf [.data (frame 1 ++ frame 2), .data (frame 5)]) ⟨[], []⟩ = .running e ∧
      ∀ n, 1 ≤ n → n ≤ 5 →
        (∃ t ∈ e.g.tick_vector, t.packet_sequence = n) ∨ n ∈ e.g.missed_packets :=
  bulk_covers_up_to_largest (allOf [.data (frame 1 ++ frame 2), .data (frame 5)]) ⟨[], []⟩
    [1, 2] 5 rfl rfl rfl (by decide) (by decide) (by decide)

/-! ## Backfill -/

theorem requestAllLoop_of_nonempty (l : List AllSession) (g : Globals)
    (h : g.tick_vector ≠ []) : requestAllLoop l g = .done g := by
  have hne : g.tick_vector.isEmpty = false := by
    cases hg : g.tick_vector with
    | nil => exact absurd hg h
    | cons a t => rfl
  cases l with
  | nil => simp [requestAllLoop, hne]
  | cons s rest => simp [requestAllLoop, hne]

theorem runOne_connected (s : OneSession) (g : Globals) (bytes : List Byte)
    (h1 : s.WSA_ok = true) (h2 : s.connect_ok = true) (h3 : s.send_ok = true)
    (hr : s.r = .data bytes) (hlen : bytes.length ≠ 0) :
    runOne s g =
      if tickIntegrityCheck (decodeTick (recvInto s.ABX_buffer bytes) 0) then
        .running { tick_vector := g.tick_vector ++ [decodeTick (recvInto s.ABX_buffer bytes) 0]
                   missed_packets := g.missed_packets.tail }
      else .exited g := by
  unfold runOne sendSpecificPacketRequests ClientApplication.init
  simp only [h1, h2, h3, hr, Bool.not_true, Bool.false_eq_true, if_false, Bool.or_self,
    if_neg hlen]

theorem runOne_serves (n : Int) (s : OneSession) (h : Serves n s) :
    ∃ t, tickIntegrityCheck t = true ∧ t.packet_sequence = n ∧
      ∀ g, runOne s g = .running { tick_vector := g.tick_vector ++ [t]
                                   missed_packets := g.missed_packets.tail } := by
  obtain ⟨h1, h2, h3, bytes, hr, hlen, hv, hn⟩ := h
  refine ⟨decodeTick (recvInto s.ABX_buffer bytes) 0, hv, hn, fun g => ?_⟩
  rw [runOne_connected s g bytes h1 h2 h3 hr hlen, if_pos hv]

theorem backfillLoop_served (pend : List Int) (ones : List OneSession)
    (h : List.Forall₂ Serves pend ones) (tv : List Tick) :
    ∃ ts, backfillLoop ones { tick_vector := tv, missed_packets := pend }
        = .done { tick_vector := tv ++ ts, missed_packets := [] } ∧
      seqs ts = pend ∧ ∀ t ∈ ts, tickIntegrityCheck t = true := by
  induction h generalizing tv with
  | nil => exact ⟨[], by simp [backfillLoop], rfl, by simp⟩
  | @cons n s pend1 ones1 hs _ ih =>
    obtain ⟨t, hv, hn, hrun⟩ := runOne_serves n s hs
    obtain ⟨ts, hts, hseq, hval⟩ := ih (tv ++ [t])
    refine ⟨t :: ts, ?_, ?_, ?_⟩
    · unfold backfillLoop
      simp only [List.isEmpty_cons, Bool.not_false, if_true, hrun, List.tail_cons]
      rw [hts]
      simp
    · simp [seqs, hn] at hseq ⊢
      exact hseq
    · intro u hu
      rcases List.mem_cons.mp hu with rfl | hu1
      · exact hv
      · exact hval u hu1

theorem received_perm (pre : List Int) (m : Int) (hinc : (pre ++ [m]).Pairwise (· < ·))
    (hlo : ∀ q ∈ pre ++ [m], (1 : Int) ≤ q) :
    List.Perm ((pre ++ [m]) ++ missing (pre ++ [m]) m) (seqRange 1 (m + 1)) := by
  have hle : ∀ q ∈ pre ++ [m], q ≤ m := by
    intro q hq
    rcases List.mem_append.mp hq with hq1 | hq1
    · have := (List.pairwise_append.mp hinc).2.2 q hq1 m (List.mem_singleton_self m)
      omega
    · rw [List.mem_singleton] at hq1
      omega
  rw [List.perm_ext_iff_of_nodup]
  · intro n
    rw [List.mem_append, mem_missing, mem_seqRange]
    constructor
    · rintro (hn | ⟨hn1, hn2, _⟩)
      · have := hlo n hn
        have := hle n hn
        omega
      · omega
    · rintro ⟨hn1, hn2⟩
      by_cases hin : n ∈ pre ++ [m]
      · exact Or.inl hin
      · exact Or.inr ⟨hn1, by omega, hin⟩
  · rw [List.nodup_append]
    refine ⟨(hinc.imp (fun hab => ne_of_lt hab)), missing_nodup _ _, ?_⟩
    intro n hn hn2
    exact ((mem_missing _ _ _).mp hn2).2.2 hn
  · exact seqRange_nodup _ _

theorem sorted_seqs (sort : StdSort) (l : List Tick) :
    (seqs (sort.run l)).Pairwise (· ≤ ·) := by
  unfold seqs
  rw [List.pairwise_map]
  refine (sort.sorted l).imp ?_
  intro a b hab
  simpa [Comparator] using hab

/-- C6. If the bulk transfer yields valid records with strictly increasing
sequence numbers `pre ++ [m]`, and the request-one sessions answer, one after
the other, the pending numbers with a valid record of the requested sequence
number, then `main` reaches the writer, and the sequence numbers of the sorted
collection are `1, 2, ..., m` in this order. -/
theorem backfill_complete (sort : StdSort) (a : AllSession) (rest : List AllSession)
    (ones : List OneSession) (pre : List Int) (m : Int)
    (h1 : a.WSA_ok = true) (h2 : a.connect_ok = true) (h3 : a.send_ok = true)
    (hvalid : ∀ t ∈ sessionTicks a.reads, tickIntegrityCheck t = true)
    (hseq : seqs (sessionTicks a.reads) = pre ++ [m])
    (hinc : (pre ++ [m]).Pairwise (· < ·))
    (hones : List.Forall₂ Serves (missing (pre ++ [m]) m) ones) :
    ∃ doc, main sort (a :: rest) ones = .written doc ∧ seqs doc = seqRange 1 (m + 1) := by
  have hbulk := bulk_increasing a ⟨[], []⟩ pre m h1 h2 h3 hvalid hseq hinc
  have hne : sessionTicks a.reads ≠ [] := by
    intro h0
    rw [h0] at hseq
    simp [seqs] at hseq
  obtain ⟨ts, hback, hts, _⟩ := backfillLoop_served _ ones hones (sessionTicks a.reads)
  have hmain : main sort (a :: rest) ones = .written (sort.run (sessionTicks a.reads ++ ts)) := by
    unfold main requestAllLoop
    simp only [List.isEmpty_nil, if_true, hbulk, List.nil_append, List.append_nil]
    rw [requestAllLoop_of_nonempty _ _ hne]
    simp only [hback]
  refine ⟨_, hmain, ?_⟩
  have hlo : ∀ q ∈ pre ++ [m], (1 : Int) ≤ q := by
    intro q hq
    rw [← hseq] at hq
    unfold seqs at hq
    rw [List.mem_map] at hq
    obtain ⟨t, ht, rfl⟩ := hq
    exact valid_seq_pos t (hvalid t ht)
  have hperm : List.Perm (seqs (sort.run (sessionTicks a.reads ++ ts))) (seqRange 1 (m + 1)) := by
    refine List.Perm.trans ((sort.perm _).map _) ?_
    have : seqs (sessionTicks a.reads ++ ts) = (pre ++ [m]) ++ missing (pre ++ [m]) m := by
      rw [← hts, ← hseq]
      simp [seqs]
    unfold seqs at this
    rw [this]
    exact received_perm pre m hinc hlo
  exact List.eq_of_perm_of_sorted hperm (sorted_seqs sort _)
    ((seqRange_sorted 1 (m + 1)).imp (fun hab => le_of_lt hab))

/-- C6, on the two scenarios of the specification: the bulk transfer yields 1,
2, 4, 5 and 3 is fetched again; the bulk transfer yields 1, 3 and 2 is fetched
again. -/
theorem backfill_complete_witness :
    (∃ doc, main insertionStdSort
        [allOf [.data (frame 1 ++ frame 2 ++ frame 4 ++ frame 5)]] [oneOf (.data (frame 3))]
          = .written doc ∧ seqs doc = seqRange 1 (5 + 1)) ∧
    main insertionStdSort
        [allOf [.data (frame 1 ++ frame 2 ++ frame 4 ++ frame 5)]] [oneOf (.data (frame 3))]
      = .written [tickOf 1, tickOf 2, tickOf 3, tickOf 4, tickOf 5] ∧
    main insertionStdSort [allOf [.data (frame 1 ++ frame 3)]] [oneOf (.data (frame 2))]
      = .written [tickOf 1, tickOf 2, tickOf 3] :=
  ⟨backfill_complete insertionStdSort (allOf [.data (frame 1 ++ frame 2 ++ frame 4 ++ frame 5)])
      [] [oneOf (.data (frame 3))] [1, 2, 4] 5 rfl rfl rfl (by decide) (by decide) (by decide)
      ((by decide : missing ([1, 2, 4] ++ [5]) 5 = [3]) ▸
        List.Forall₂.cons ⟨rfl, rfl, rfl, frame 3, rfl, by decide, by decide, by decide⟩
          List.Forall₂.nil),
    by decide, by decide⟩

/-! ## Integrity failures -/

theorem processTicks_invalid (good : List Tick) (bad : Tick) (later : List Tick) (b : Bulk)
    (hgood : ∀ t ∈ good, tickIntegrityCheck t = true) (hbad : tickIntegrityCheck bad = false) :
    processTicks (good ++ bad :: later) b = .exited
      { tick_vector := b.g.tick_vector ++ good
        missed_packets := (trackAll (b.seq_num, b.g.missed_packets) (seqs good)).2 } := by
  rw [processTicks_append, processTicks_valid good b hgood]
  simp only [processTicks, processTick_invalid _ _ hbad]

/-- C7. When a record of a bulk session fails validation, the session ends the
process there: the collection at that point is the collection before the session
followed by exactly the records accepted before the failing one, and `main`
ends in `exit(0)` with these records, never reaching the sort and the writer. -/
theorem integrity_failure_exits (sort : StdSort) (a : AllSession) (rest : List AllSession)
    (ones : List OneSession) (good : List Tick) (bad : Tick) (later : List Tick)
    (h1 : a.WSA_ok = true) (h2 : a.connect_ok = true) (h3 : a.send_ok = true)
    (hticks : sessionTicks a.reads = good ++ bad :: later)
    (hgood : ∀ t ∈ good, tickIntegrityCheck t = true)
    (hbad : tickIntegrityCheck bad = false) :
    (∀ g0, ∃ g1, runAll a g0 = .exited g1 ∧ g1.tick_vector = g0.tick_vector ++ good) ∧
    (∃ g1, main sort (a :: rest) ones = .exited g1 ∧ g1.tick_vector = good) := by
  have hrun : ∀ g0, runAll a g0 = .exited
      { tick_vector := g0.tick_vector ++ good
        missed_packets := (trackAll (1, g0.missed_packets) (seqs good)).2 } := by
    intro g0
    rw [runAll_connected a g0 h1 h2 h3, hticks, processTicks_invalid good bad later _ hgood hbad]
  refine ⟨fun g0 => ⟨_, hrun g0, rfl⟩, ?_⟩
  refine ⟨{ tick_vector := good, missed_packets := (trackAll (1, []) (seqs good)).2 }, ?_, rfl⟩
  unfold main requestAllLoop
  simp only [List.isEmpty_nil, if_true, hrun, List.nil_append]

/-- C7, on the scenario of the specification: the second record of the bulk
transfer has quantity 0. -/
theorem integrity_failure_exits_witness :
    (∀ g0, ∃ g1,
      runAll (allOf [.data (frame 1 ++ zeroQuantityFrame 2 ++ frame 3), .data (frame 4)]) g0
        = .exited g1 ∧ g1.tick_vector = g0.tick_vector ++ [tickOf 1]) ∧
    (∃ g1, main insertionStdSort
        [allOf [.data (frame 1 ++ zeroQuantityFrame 2 ++ frame 3), .data (frame 4)]] []
          = .exited g1 ∧ g1.tick_vector = [tickOf 1]) :=
  integrity_failure_exits insertionStdSort
    (allOf [.data (frame 1 ++ zeroQuantityFrame 2 ++ frame 3), .data (frame 4)]) [] []
    [tickOf 1] (decodeTick (zeroQuantityFrame 2) 0) [tickOf 3, tickOf 4]
    rfl rfl rfl (by decide) (by decide) (by decide)

/-! ## Only valid records are kept -/

theorem processTicks_keeps_valid (ts : List Tick) (b : Bulk) (hb : AllValid b.g) :
    (∀ b1, processTicks ts b = .running b1 → AllValid b1.g) ∧
    (∀ g1, processTicks ts b = .exited g1 → AllValid g1) := by
  induction ts generalizing b with
  | nil =>
    constructor
    · intro b1 h
      simp only [processTicks, Outcome.running.injEq] at h
      exact h ▸ hb
    · intro g1 h
      simp [processTicks] at h
  | cons t ts ih =>
    unfold processTicks
    cases hc : tickIntegrityCheck t with
    | true =>
      rw [processTick_valid t b hc]
      apply ih
      intro u hu
      rcases List.mem_append.mp hu with hu1 | hu1
      · exact hb u hu1
      · rw [List.mem_singleton] at hu1
        exact hu1 ▸ hc
    | false =>
      rw [processTick_invalid t b hc]
      constructor
      · intro b1 h
        simp at h
      · intro g1 h
        simp only [Outcome.exited.injEq] at h
        exact h ▸ hb

theorem runAll_keeps_valid (s : AllSession) (g : Globals) (hg : AllValid g) :
    (∀ e, runAll s g = .running e → AllValid e.g) ∧
    (∀ g1, runAll s g = .exited g1 → AllValid g1) := by
  unfold runAll sendAllPacketsRequest
  split
  · constructor
    · intro e h
      simp only [Outcome.running.injEq] at h
      exact h ▸ hg
    · intro g1 h
      simp at h
  · split
    · constructor
      · intro e h
        simp only [Outcome.running.injEq] at h
        exact h ▸ hg
      · intro g1 h
        simp at h
    · rw [recvLoop_eq]
      have key := processTicks_keeps_valid (sessionTicks s.reads)
        { g := g, seq_num := (ClientApplication.init s.WSA_ok s.connect_ok s.uninit).seq_num } hg
      cases hp : processTicks (sessionTicks s.reads)
          { g := g, seq_num := (ClientApplication.init s.WSA_ok s.connect_ok s.uninit).seq_num } with
      | running b1 =>
        constructor
        · intro e h
          simp only [Outcome.running.injEq] at h
          exact h ▸ key.1 b1 hp
        · intro g1 h
          simp at h
      | exited g2 =>
        constructor
        · intro e h
          simp at h
        · intro g1 h
          simp only [Outcome.exited.injEq] at h
          exact h ▸ key.2 g2 hp

theorem runOne_keeps_valid (s : OneSession) (g : Globals) (hg : AllValid g) :
    (∀ g1, runOne s g = .running g1 → AllValid g1) ∧
    (∀ g1, runOne s g = .exited g1 → AllValid g1) := by
  have hsame : ∀ (o : Outcome Globals), o = .running g ∨ o = .exited g →
      (∀ g1, o = .running g1 → AllValid g1) ∧ (∀ g1, o = .exited g1 → AllValid g1) := by
    intro o ho
    rcases ho with rfl | rfl
    · exact ⟨fun g1 h => by simp only [Outcome.running.injEq] at h; exact h ▸ hg,
        fun g1 h => by simp at h⟩
    · exact ⟨fun g1 h => by simp at h,
        fun g1 h => by simp only [Outcome.exited.injEq] at h; exact h ▸ hg⟩
  unfold runOne sendSpecificPacketRequests
  split
  · exact hsame _ (Or.inl rfl)
  · split
    · exact hsame _ (Or.inl rfl)
    · split
      · exact hsame _ (Or.inl rfl)
      · split
        · exact hsame _ (Or.inl rfl)
        · simp only
          split
          · rename_i hv
            constructor
            · intro g1 h
              simp only [Outcome.running.injEq] at h
              subst h
              intro u hu
              rcases List.mem_append.mp hu with hu1 | hu1
              · exact hg u hu1
              · rw [List.mem_singleton] at hu1
                exact hu1 ▸ hv
            · intro g1 h
              simp at h
          · exact hsame _ (Or.inr rfl)

theorem requestAllLoop_keeps_valid (l : List AllSession) (g : Globals) (hg : AllValid g) :
    AllValid (requestAllLoop l g).globals := by
  induction l generalizing g with
  | nil =>
    unfold requestAllLoop
    split <;> exact hg
  | cons s rest ih =>
    unfold requestAllLoop
    split
    · have key := runAll_keeps_valid s g hg
      cases hr : runAll s g with
      | running e => exact ih e.g (key.1 e hr)
      | exited g1 => exact key.2 g1 hr
    · exact hg

theorem backfillLoop_keeps_valid (l : List OneSession) (g : Globals) (hg : AllValid g) :
    AllValid (backfillLoop l g).globals := by
  induction l generalizing g with
  | nil =>
    unfold backfillLoop
    split <;> exact hg
  | cons s rest ih =>
    unfold backfillLoop
    split
    · have key := runOne_keeps_valid s g hg
      cases hr : runOne s g with
      | running g1 => exact ih g1 (key.1 g1 hr)
      | exited g1 => exact key.2 g1 hr
    · exact hg

theorem reachable_valid (g : Globals) (h : Reachable g) : AllValid g := by
  induction h with
  | start =>
    intro t ht
    simp at ht
  | all_returned s g e _ hr ih => exact (runAll_keeps_valid s g ih).1 e hr
  | all_exited s g g1 _ hr ih => exact (runAll_keeps_valid s g ih).2 g1 hr
  | one_returned s g g1 _ hr ih => exact (runOne_keeps_valid s g ih).1 g1 hr
  | one_exited s g g1 _ hr ih => exact (runOne_keeps_valid s g ih).2 g1 hr

/-- C8. In every state reached by any sequence of request-all and request-one
sessions from the empty collection, every record of the result collection
passes `tickIntegrityCheck`; and so does every record of the sorted collection
that `main` hands to the writer. -/
theorem collection_always_valid :
    (∀ g, Reachable g → ∀ t ∈ g.tick_vector, tickIntegrityCheck t = true) ∧
    (∀ (sort : StdSort) (alls : List AllSession) (ones : List OneSession) (doc : List Tick),
      main sort alls ones = .written doc → ∀ t ∈ doc, tickIntegrityCheck t = true) := by
  refine ⟨fun g h => reachable_valid g h, ?_⟩
  intro sort alls ones doc hmain t ht
  have h0 : AllValid { tick_vector := [], missed_packets := [] } := by
    intro u hu
    simp at hu
  have hA := requestAllLoop_keeps_valid alls _ h0
  unfold main at hmain
  cases hp : requestAllLoop alls { tick_vector := [], missed_packets := [] } with
  | done g =>
    rw [hp] at hmain hA
    dsimp only at hmain
    have hB := backfillLoop_keeps_valid ones g hA
    cases hq : backfillLoop ones g with
    | done g1 =>
      rw [hq] at hmain hB
      simp only [MainResult.written.injEq] at hmain
      subst hmain
      exact hB t ((sort.perm _).mem_iff.mp ht)
    | exited g1 =>
      rw [hq] at hmain
      simp at hmain
    | waiting g1 =>
      rw [hq] at hmain
      simp at hmain
  | exited g =>
    rw [hp] at hmain
    simp at hmain
  | waiting g =>
    rw [hp] at hmain
    simp at hmain

/-! ## Request-one sessions -/

/-- C9. A request-one session that fails to connect, fails to send, or whose
read returns an error or no bytes returns with the collection and the pending
set as they were, and the backfill loop goes on from that same state. -/
theorem request_one_failure_keeps_state (s : OneSession) (g : Globals)
    (rest : List OneSession)
    (h : s.WSA_ok = false ∨ s.connect_ok = false ∨ s.send_ok = false ∨
      s.r = .error ∨ s.r = .data []) :
    runOne s g = .running g ∧ backfillLoop (s :: rest) g = backfillLoop rest g := by
  have hrun : runOne s g = .running g := by
    unfold runOne sendSpecificPacketRequests ClientApplication.init
    rcases h with h | h | h | h | h
    · simp [h]
    · cases hw : s.WSA_ok <;> simp [h]
    · cases hw : s.WSA_ok <;> cases hc : s.connect_ok <;> simp [h]
    · cases hw : s.WSA_ok <;> cases hc : s.connect_ok <;> cases hs : s.send_ok <;> simp [h]
    · cases hw : s.WSA_ok <;> cases hc : s.connect_ok <;> cases hs : s.send_ok <;> simp [h]
  refine ⟨hrun, ?_⟩
  cases rest with
  | nil =>
    unfold backfillLoop
    rw [hrun]
    simp only [backfillLoop]
    split <;> rfl
  | cons s1 rest1 =>
    rw [backfillLoop, hrun]
    split
    · rfl
    · rename_i hempty
      rw [backfillLoop, if_neg hempty]

/-- C9, on a session whose read fails while 2 is pending. -/
theorem request_one_failure_keeps_state_witness :
    runOne (oneOf .error) ⟨[tickOf 1, tickOf 3], [2]⟩ = .running ⟨[tickOf 1, tickOf 3], [2]⟩ ∧
    backfillLoop (oneOf .error :: [oneOf (.data (frame 2))]) ⟨[tickOf 1, tickOf 3], [2]⟩
      = backfillLoop [oneOf (.data (frame 2))] ⟨[tickOf 1, tickOf 3], [2]⟩ :=
  request_one_failure_keeps_state (oneOf .error) ⟨[tickOf 1, tickOf 3], [2]⟩
    [oneOf (.data (frame 2))] (Or.inr (Or.inr (Or.inr (Or.inl rfl))))

/-- C10. A request-one session, run while `n` is on top of the pending stack,
whose response decodes to a record that passes validation, returns with that one
record appended to the collection and with `n` alone taken off the pending
stack; the sequence number of the record plays no part. -/
theorem request_one_success_effect (s : OneSession) (g : Globals) (n : Int)
    (pending : List Int) (bytes : List Byte)
    (h1 : s.WSA_ok = true) (h2 : s.connect_ok = true) (h3 : s.send_ok = true)
    (hr : s.r = .data bytes) (hlen : bytes.length ≠ 0)
    (hv : tickIntegrityCheck (decodeTick (recvInto s.ABX_buffer bytes) 0) = true)
    (hg : g.missed_packets = n :: pending) :
    runOne s g = .running
      { tick_vector := g.tick_vector ++ [decodeTick (recvInto s.ABX_buffer bytes) 0]
        missed_packets := pending } := by
  rw [runOne_connected s g bytes h1 h2 h3 hr hlen, if_pos hv, hg]
  rfl

/-- C10, on a session that asks for 2 while 2 and 6 are pending and is
answered with record 7. -/
theorem request_one_success_effect_witness :
    runOne (oneOf (.data (frame 7))) ⟨[tickOf 1], [2, 6]⟩
      = .running ⟨[tickOf 1] ++ [decodeTick (recvInto [] (frame 7)) 0], [6]⟩ ∧
    decodeTick (recvInto [] (frame 7)) 0 = tickOf 7 :=
  ⟨request_one_success_effect (oneOf (.data (frame 7))) ⟨[tickOf 1], [2, 6]⟩ 2 [6] (frame 7)
    rfl rfl rfl rfl (by decide) (by decide) rfl, by decide⟩

/-! ## Short responses in request-one mode -/

theorem rd_recvInto_ge (buf bytes : List Byte) (i : Nat) (h : bytes.length ≤ i) :
    rd (recvInto buf bytes) i = rd buf i := by
  unfold rd recvInto
  rw [List.getD_append_right _ _ _ _ h, List.getD_eq_getElem?_getD, List.getD_eq_getElem?_getD,
    List.getElem?_drop]
  congr 2
  omega

theorem tickOf_valid (n : Int) (h : 0 < n) : tickIntegrityCheck (tickOf n) = true := by
  rw [tickIntegrityCheck_eq_true_iff]
  dsimp only [tickOf]
  refine ⟨⟨⟨?_, ?_⟩, ⟨?_, ?_⟩, ⟨?_, ?_⟩, ⟨?_, ?_⟩⟩, Or.inl rfl, ?_, ?_, h⟩ <;> decide

theorem decode_shortResponse (stale : List Byte) :
    decodeTick (recvInto stale shortResponse) 0 = tickOf (256 + ((rd stale 16).val : Int)) := by
  have hlen : shortResponse.length = 16 := rfl
  unfold decodeTick byteToBuySellIndicator byteToQuantity byteToPrice byteToPacketSequence
  simp only [Nat.zero_add, int32_be]
  rw [rd_recvInto stale shortResponse 0 (by omega), rd_recvInto stale shortResponse 1 (by omega),
    rd_recvInto stale shortResponse 2 (by omega), rd_recvInto stale shortResponse 3 (by omega),
    rd_recvInto stale shortResponse 4 (by omega), rd_recvInto stale shortResponse 5 (by omega),
    rd_recvInto stale shortResponse 6 (by omega), rd_recvInto stale shortResponse 7 (by omega),
    rd_recvInto stale shortResponse 8 (by omega), rd_recvInto stale shortResponse 9 (by omega),
    rd_recvInto stale shortResponse 10 (by omega), rd_recvInto stale shortResponse 11 (by omega),
    rd_recvInto stale shortResponse 12 (by omega), rd_recvInto stale shortResponse 13 (by omega),
    rd_recvInto stale shortResponse 14 (by omega), rd_recvInto stale shortResponse 15 (by omega),
    rd_recvInto_ge stale shortResponse 16 (by omega)]
  have hseq : beSigned32 (rd shortResponse 13) (rd shortResponse 14) (rd shortResponse 15)
      (rd stale 16) = 256 + ((rd stale 16).val : Int) := by
    have hx := (rd stale 16).isLt
    have h13 : (rd shortResponse 13).val = 0 := rfl
    have h14 : (rd shortResponse 14).val = 0 := rfl
    have h15 : (rd shortResponse 15).val = 1 := rfl
    unfold beSigned32
    rw [h13, h14, h15]
    split <;> omega
  rw [hseq]
  unfold tickOf
  congr 1

/-- C11, on the code: a request-one session run while 2 is pending reads the 16
bytes of `shortResponse`; whatever the array held before, the session returns
with a record appended (its last sequence byte is the stale byte 16 of the
array) and with 2 taken off the pending stack. -/
theorem short_response_is_decoded (stale : List Byte) :
    shortResponse.length = 16 ∧
    runOne (oneInto stale (.data shortResponse)) ⟨[tickOf 1, tickOf 3], [2]⟩
      = .running ⟨[tickOf 1, tickOf 3, tickOf (256 + ((rd stale 16).val : Int))], []⟩ := by
  refine ⟨rfl, ?_⟩
  have hv : tickIntegrityCheck (tickOf (256 + ((rd stale 16).val : Int))) = true := by
    apply tickOf_valid
    omega
  rw [runOne_connected (oneInto stale (.data shortResponse)) _ shortResponse rfl rfl rfl rfl
    (by decide)]
  simp only [oneInto, decode_shortResponse, hv, if_true, List.cons_append, List.nil_append,
    List.tail_cons]

/-! ## The sort before the writer -/

theorem main_written (sort : StdSort) (alls : List AllSession) (ones : List OneSession)
    (doc : List Tick) (h : main sort alls ones = .written doc) :
    ∃ g0 g1, requestAllLoop alls { tick_vector := [], missed_packets := [] } = .done g0 ∧
      backfillLoop ones g0 = .done g1 ∧ doc = sort.run g1.tick_vector := by
  unfold main at h
  cases hp : requestAllLoop alls { tick_vector := [], missed_packets := [] } with
  | done g =>
    rw [hp] at h
    dsimp only at h
    cases hq : backfillLoop ones g with
    | done g1 =>
      rw [hq] at h
      simp only [MainResult.written.injEq] at h
      exact ⟨g, g1, rfl, hq, h.symm⟩
    | exited g1 =>
      rw [hq] at h
      simp at h
    | waiting g1 =>
      rw [hq] at h
      simp at h
  | exited g =>
    rw [hp] at h
    simp at h
  | waiting g =>
    rw [hp] at h
    simp at h

/-- C12. For every collection `l`, what `std::sort` with `Comparator` leaves is
sorted ascending by sequence number (each record's sequence number is at most
the next one's) and is a permutation of `l`, the records themselves being
unchanged; and the collection that `main` hands to the writer is this sorted
permutation of the collection the backfill loop ended with. -/
theorem sorted_permutation (sort : StdSort) :
    (∀ l, (seqs (sort.run l)).Chain' (· ≤ ·) ∧ (seqs (sort.run l)).Pairwise (· ≤ ·) ∧
      (sort.run l).Perm l) ∧
    (∀ (alls : List AllSession) (ones : List OneSession) (doc : List Tick),
      main sort alls ones = .written doc →
      ∃ g0 g1, requestAllLoop alls { tick_vector := [], missed_packets := [] } = .done g0 ∧
        backfillLoop ones g0 = .done g1 ∧
        (seqs doc).Chain' (· ≤ ·) ∧ doc.Perm g1.tick_vector) := by
  constructor
  · intro l
    exact ⟨(sorted_seqs sort l).chain', sorted_seqs sort l, sort.perm l⟩
  · intro alls ones doc h
    obtain ⟨g0, g1, h0, h1, hdoc⟩ := main_written sort alls ones doc h
    refine ⟨g0, g1, h0, h1, ?_, ?_⟩
    · rw [hdoc]
      exact (sorted_seqs sort _).chain'
    · rw [hdoc]
      exact sort.perm _

theorem eq_of_perm_of_map_eq (f : Tick → Int) (l1 l2 : List Tick) (hp : l1.Perm l2)
    (hm : l1.map f = l2.map f) (hn : (l2.map f).Nodup) : l1 = l2 := by
  induction l1 generalizing l2 with
  | nil =>
    cases l2 with
    | nil => rfl
    | cons b t2 => simp at hm
  | cons a t1 ih =>
    cases l2 with
    | nil => simp at hm
    | cons b t2 =>
      simp only [List.map_cons, List.cons.injEq] at hm
      rw [List.map_cons, List.nodup_cons] at hn
      have hab : a = b := by
        have hmem : a ∈ b :: t2 := hp.subset (List.mem_cons_self _ _)
        rcases List.mem_cons.mp hmem with h | h
        · exact h
        · exfalso
          apply hn.1
          rw [← hm.1]
          exact List.mem_map_of_mem f h
      subst hab
      rw [ih t2 (List.Perm.cons_inv hp) hm.2 hn.2]

theorem sort_sorted_seqs (sort : StdSort) (l : List Tick) (hs : (seqs l).Pairwise (· ≤ ·)) :
    seqs (sort.run l) = seqs l :=
  List.eq_of_perm_of_sorted ((sort.perm l).map _) (sorted_seqs sort l) hs

theorem sort_sorted_nodup (sort : StdSort) (l : List Tick) (hs : (seqs l).Pairwise (· ≤ ·))
    (hn : (seqs l).Nodup) : sort.run l = l :=
  eq_of_perm_of_map_eq (fun t => t.packet_sequence) _ _ (sort.perm l)
    (sort_sorted_seqs sort l hs) hn

/-- C13 as stated fails: the collection of 17 valid records with sequence
number 1 and quantities 1, ..., 17 (what a bulk transfer that delivers record 1
seventeen times leaves) is sorted by sequence number, and `std::sort` returns
its records in the order of quantities 9, 17, 16, ..., 10, 1, 8, 7, ..., 2; and
sorting the result again changes the order again. -/
theorem std_sort_reorders_equal_sequences :
    (∀ t ∈ seventeenOnes, tickIntegrityCheck t = true) ∧
    (seqs seventeenOnes).Pairwise (· ≤ ·) ∧
    (std_sort seventeenOnes).map (fun t => t.quantity)
      = [9, 17, 16, 15, 14, 13, 12, 11, 10, 1, 8, 7, 6, 5, 4, 3, 2] ∧
    seqs (std_sort seventeenOnes) = seqs seventeenOnes ∧
    std_sort seventeenOnes ≠ seventeenOnes ∧
    std_sort (std_sort seventeenOnes) ≠ std_sort seventeenOnes := by
  refine ⟨by decide, by decide, by decide, by decide, by decide, by decide⟩

/-- C13, amended. Sorting a collection that is already sorted ascending by
sequence number leaves the sequence numbers in the same order; when no two
records share a sequence number it returns the collection unchanged, element
for element; hence sorting twice gives the sequence numbers of sorting once,
and the same collection when the sequence numbers are distinct. -/
theorem sort_sorted_unchanged (sort : StdSort) (l : List Tick)
    (hs : (seqs l).Pairwise (· ≤ ·)) :
    seqs (sort.run l) = seqs l ∧
    ((seqs l).Nodup → sort.run l = l) ∧
    seqs (sort.run (sort.run l)) = seqs (sort.run l) ∧
    ((seqs l).Nodup → sort.run (sort.run l) = sort.run l) := by
  refine ⟨sort_sorted_seqs sort l hs, sort_sorted_nodup sort l hs,
    sort_sorted_seqs sort _ (sorted_seqs sort l), ?_⟩
  intro hn
  rw [sort_sorted_nodup sort l hs hn, sort_sorted_nodup sort l hs hn]

/-- C13 amended, on the collection 1, 2, 2, 3 and on the collection 1, 2, 3,
sorted by insertion; and `std::sort` itself on the collection 1, 2, ..., 18. -/
theorem sort_sorted_unchanged_witness :
    (seqs (insertionStdSort.run [tickOf 1, tickWith 2 50, tickWith 2 60, tickOf 3])
        = seqs [tickOf 1, tickWith 2 50, tickWith 2 60, tickOf 3]) ∧
    insertionStdSort.run [tickOf 1, tickOf 2, tickOf 3] = [tickOf 1, tickOf 2, tickOf 3] ∧
    std_sort ((List.range 18).map (fun (i : Nat) => tickOf ((i : Int) + 1)))
      = (List.range 18).map (fun (i : Nat) => tickOf ((i : Int) + 1)) :=
  ⟨(sort_sorted_unchanged insertionStdSort [tickOf 1, tickWith 2 50, tickWith 2 60, tickOf 3]
      (by decide)).1,
    (sort_sorted_unchanged insertionStdSort [tickOf 1, tickOf 2, tickOf 3] (by decide)).2.1
      (by decide),
    by decide⟩

/-! ## The end of a request-all session -/

theorem sessionTicks_stop (before after : List Recv) (stop : Recv)
    (hbefore : ∀ r ∈ before, ∃ bytes, r = .data bytes ∧ bytes.length ≠ 0)
    (hstop : stop = .error ∨ stop = .data []) :
    sessionTicks (before ++ stop :: after) = sessionTicks before := by
  induction before with
  | nil =>
    rcases hstop with rfl | rfl
    · rfl
    · simp [sessionTicks]
  | cons r rest ih =>
    obtain ⟨bytes, rfl, hlen⟩ := hbefore r (List.mem_cons_self _ _)
    have hrest := ih (fun r hr => hbefore r (List.mem_cons_of_mem _ hr))
    rw [List.cons_append, sessionTicks, sessionTicks, if_neg hlen, if_neg hlen, hrest]

theorem endingOf_completed_iff (b : Bulk) :
    endingOf b = .completed ↔ b.g.tick_vector ≠ [] := by
  unfold endingOf
  cases h : b.g.tick_vector with
  | nil => simp
  | cons a t => simp

/-- C14. A request-all session whose reads are `before` (each with at least one
byte), then a read `stop` that is an error or returns no bytes, then `after`:
the reads in `after` play no part; the session ends with the collection and the
gap set obtained from the records of `before`; it ends as `completed` exactly
when the collection is then not empty; and the loop of `main` opens the next
request-all session exactly when the collection is still empty. -/
theorem request_all_stops_at_first_end (s : AllSession) (g : Globals)
    (before after : List Recv) (stop : Recv)
    (h1 : s.WSA_ok = true) (h2 : s.connect_ok = true) (h3 : s.send_ok = true)
    (hreads : s.reads = before ++ stop :: after)
    (hbefore : ∀ r ∈ before, ∃ bytes, r = .data bytes ∧ bytes.length ≠ 0)
    (hstop : stop = .error ∨ stop = .data []) :
    runAll s g = runAll { s with reads := before ++ [stop] } g ∧
    runAll s g =
      (match processTicks (sessionTicks before) { g := g, seq_num := 1 } with
        | .running b1 => .running { g := b1.g, seq_num := b1.seq_num, ending := endingOf b1 }
        | .exited g1 => .exited g1) ∧
    (∀ e, runAll s g = .running e →
      (e.ending = .completed ↔ e.g.tick_vector ≠ []) ∧
      (e.ending = .no_data ↔ e.g.tick_vector = []) ∧
      ∀ (next : AllSession) (more : List AllSession), g.tick_vector = [] →
        requestAllLoop (s :: next :: more) g =
          if e.g.tick_vector = [] then
            (match runAll next e.g with
              | .running e2 => requestAllLoop more e2.g
              | .exited g2 => .exited g2)
          else .done e.g) := by
  have hmain : runAll s g =
      (match processTicks (sessionTicks before) { g := g, seq_num := 1 } with
        | .running b1 => .running { g := b1.g, seq_num := b1.seq_num, ending := endingOf b1 }
        | .exited g1 => .exited g1) := by
    rw [runAll_connected s g h1 h2 h3, hreads, sessionTicks_stop before after stop hbefore hstop]
  refine ⟨?_, hmain, ?_⟩
  · rw [hmain, runAll_connected { s with reads := before ++ [stop] } g h1 h2 h3]
    simp only [sessionTicks_stop before [] stop hbefore hstop]
  · intro e he
    rw [hmain] at he
    cases hp : processTicks (sessionTicks before) { g := g, seq_num := 1 } with
    | exited g1 =>
      rw [hp] at he
      simp at he
    | running b1 =>
      rw [hp] at he
      simp only [Outcome.running.injEq] at he
      subst he
      have hc := endingOf_completed_iff b1
      refine ⟨hc, ?_, ?_⟩
      · dsimp only
        constructor
        · intro hnd
          by_contra hne
          rw [hc.mpr hne] at hnd
          simp at hnd
        · intro hnil
          unfold endingOf
          simp [hnil]
      · intro next more hg
        have hrun : runAll s g
            = .running { g := b1.g, seq_num := b1.seq_num, ending := endingOf b1 } := by
          rw [hmain, hp]
        rw [requestAllLoop]
        simp only [hg, List.isEmpty_nil, if_true, hrun]
        by_cases hnil : b1.g.tick_vector = []
        · rw [requestAllLoop]
          simp [hnil]
        · rw [requestAllLoop_of_nonempty _ _ hnil]
          simp [hnil]

/-- C14, on a session that reads records 1 and 2, then no bytes, then a frame
that is never read. -/
theorem request_all_stops_at_first_end_witness :
    runAll (allOf [.data (frame 1 ++ frame 2), .data [], .data (frame 3)]) ⟨[], []⟩
      = .running ⟨⟨[tickOf 1, tickOf 2], []⟩, 3, .completed⟩ ∧
    runAll (allOf [.data (frame 1 ++ frame 2), .data [], .data (frame 3)]) ⟨[], []⟩
      = runAll { allOf [.data (frame 1 ++ frame 2), .data [], .data (frame 3)] with
                 reads := [.data (frame 1 ++ frame 2)] ++ [.data []] } ⟨[], []⟩ :=
  ⟨by decide,
    (request_all_stops_at_first_end
      (allOf [.data (frame 1 ++ frame 2), .data [], .data (frame 3)]) ⟨[], []⟩
      [.data (frame 1 ++ frame 2)] [.data (frame 3)] (.data []) rfl rfl rfl rfl
      (fun r hr => ⟨frame 1 ++ frame 2, List.mem_singleton.mp hr, by decide⟩) (Or.inr rfl)).1⟩

/-! ## The number of request-one sessions -/

theorem runOne_succeeds (s : OneSession) (h : Succeeds s) :
    ∃ t, tickIntegrityCheck t = true ∧
      ∀ g, runOne s g = .running { tick_vector := g.tick_vector ++ [t]
                                   missed_packets := g.missed_packets.tail } := by
  obtain ⟨h1, h2, h3, bytes, hr, hlen, hv⟩ := h
  refine ⟨decodeTick (recvInto s.ABX_buffer bytes) 0, hv, fun g => ?_⟩
  rw [runOne_connected s g bytes h1 h2 h3 hr hlen, if_pos hv]

theorem backfill_all_succeed (ones : List OneSession) (tv : List Tick) (pend : List Int)
    (hall : ∀ s ∈ ones, Succeeds s) (hlen : pend.length ≤ ones.length) :
    (∃ ts, backfillLoop ones { tick_vector := tv, missed_packets := pend }
        = .done { tick_vector := tv ++ ts, missed_packets := [] } ∧
      ts.length = pend.length) ∧
    backfillSessions ones { tick_vector := tv, missed_packets := pend } = pend.length := by
  induction ones generalizing tv pend with
  | nil =>
    have hp : pend = [] := List.length_eq_zero.mp (Nat.le_zero.mp hlen)
    subst hp
    exact ⟨⟨[], by simp [backfillLoop], rfl⟩, rfl⟩
  | cons s rest ih =>
    cases pend with
    | nil => exact ⟨⟨[], by simp [backfillLoop], rfl⟩, by simp [backfillSessions]⟩
    | cons n pend1 =>
      obtain ⟨t, _, hrun⟩ := runOne_succeeds s (hall s (List.mem_cons_self _ _))
      obtain ⟨⟨ts, hts, hl⟩, hc⟩ := ih (tv ++ [t]) pend1
        (fun u hu => hall u (List.mem_cons_of_mem _ hu))
        (by simp only [List.length_cons] at hlen; omega)
      constructor
      · refine ⟨t :: ts, ?_, by simp [hl]⟩
        rw [backfillLoop]
        simp only [List.isEmpty_cons, Bool.not_false, if_true, hrun, List.tail_cons]
        rw [hts]
        simp
      · rw [backfillSessions]
        simp only [List.isEmpty_cons, Bool.not_false, if_true, hrun, List.tail_cons]
        rw [hc]
        simp only [List.length_cons]
        omega

/-- C15. When every request-one session succeeds with a valid record (and
there are as many sessions as pending numbers, or more), the backfill loop ends
with an empty gap set after opening exactly as many sessions as numbers were
pending, one record being appended per session. In particular a bulk transfer
of valid records with sequence numbers 1, 2, 3 leaves 3 records and an empty
gap set, no request-one session is opened, and `main` goes on to the sort. -/
theorem backfill_session_count (ones : List OneSession) (g : Globals)
    (hall : ∀ s ∈ ones, Succeeds s) (hlen : g.missed_packets.length ≤ ones.length) :
    ((∃ ts, backfillLoop ones g = .done { tick_vector := g.tick_vector ++ ts
                                          missed_packets := [] } ∧
        ts.length = g.missed_packets.length) ∧
      backfillSessions ones g = g.missed_packets.length) ∧
    (∀ (sort : StdSort) (a : AllSession) (rest : List AllSession) (any : List OneSession),
      a.WSA_ok = true → a.connect_ok = true → a.send_ok = true →
      (∀ t ∈ sessionTicks a.reads, tickIntegrityCheck t = true) →
      seqs (sessionTicks a.reads) = [1, 2, 3] →
      requestAllLoop (a :: rest) { tick_vector := [], missed_packets := [] }
          = .done { tick_vector := sessionTicks a.reads, missed_packets := [] } ∧
        (sessionTicks a.reads).length = 3 ∧
        backfillSessions any { tick_vector := sessionTicks a.reads, missed_packets := [] } = 0 ∧
        main sort (a :: rest) any = .written (sort.run (sessionTicks a.reads))) := by
  constructor
  · exact backfill_all_succeed ones g.tick_vector g.missed_packets hall hlen
  · intro sort a rest any h1 h2 h3 hvalid hseq
    have hbulk := bulk_increasing a ⟨[], []⟩ [1, 2] 3 h1 h2 h3 hvalid hseq (by decide)
    have hmiss : missing ([1, 2] ++ [3]) 3 = [] := by decide
    rw [hmiss] at hbulk
    simp only [List.nil_append, List.append_nil] at hbulk
    have hne : sessionTicks a.reads ≠ [] := by
      intro h0
      rw [h0] at hseq
      simp [seqs] at hseq
    have hloop : requestAllLoop (a :: rest) { tick_vector := [], missed_packets := [] }
        = .done { tick_vector := sessionTicks a.reads, missed_packets := [] } := by
      rw [requestAllLoop]
      simp only [List.isEmpty_nil, if_true, hbulk]
      exact requestAllLoop_of_nonempty _ _ hne
    have hback : ∀ l : List OneSession,
        backfillLoop l { tick_vector := sessionTicks a.reads, missed_packets := [] }
          = .done { tick_vector := sessionTicks a.reads, missed_packets := [] } := by
      intro l
      cases l <;> simp [backfillLoop]
    refine ⟨hloop, ?_, ?_, ?_⟩
    · have := congrArg List.length hseq
      simpa [seqs] using this
    · cases any <;> simp [backfillSessions]
    · unfold main
      rw [hloop]
      simp only [hback]

/-- C15, on a backfill with 2 and 4 pending, and on the bulk transfer 1, 2, 3
of the specification. -/
theorem backfill_session_count_witness :
    backfillSessions [oneOf (.data (frame 4)), oneOf (.data (frame 2))]
        ⟨[tickOf 1, tickOf 3, tickOf 5], [4, 2]⟩ = 2 ∧
    backfillLoop [oneOf (.data (frame 4)), oneOf (.data (frame 2))]
        ⟨[tickOf 1, tickOf 3, tickOf 5], [4, 2]⟩
      = .done ⟨[tickOf 1, tickOf 3, tickOf 5, tickOf 4, tickOf 2], []⟩ ∧
    main insertionStdSort [allOf [.data (frame 1 ++ frame 2 ++ frame 3)]]
        [oneOf (.data (frame 9))]
      = .written [tickOf 1, tickOf 2, tickOf 3] ∧
    backfillSessions [oneOf (.data (frame 9))] ⟨[tickOf 1, tickOf 2, tickOf 3], []⟩ = 0 :=
  ⟨(backfill_session_count [oneOf (.data (frame 4)), oneOf (.data (frame 2))]
      ⟨[tickOf 1, tickOf 3, tickOf 5], [4, 2]⟩
      (fun s hs => by
        rcases List.mem_cons.mp hs with rfl | hs1
        · exact ⟨rfl, rfl, rfl, frame 4, rfl, by decide, by decide⟩
        · rw [List.mem_singleton] at hs1
          subst hs1
          exact ⟨rfl, rfl, rfl, frame 2, rfl, by decide, by decide⟩)
      (by decide)).1.2,
    by decide, by decide, by decide⟩

/-! ## Request frames -/

theorem charToByte_intToChar (n : Int) :
    ((charToByte (intToChar n)).val : Int) = n % 256 := by
  have hval : (charToByte (intToChar n)).val = ((intToChar n) % 256).toNat % 256 := rfl
  rw [hval]
  unfold intToChar
  omega

/-- C16. The request-all frame is the two bytes 1, 0. The request-one frame for
a pending sequence number `n` is the two bytes 2 and `n mod 256`; its second
byte is `n` itself exactly when `1 ≤ n ≤ 255`, and for `n ≥ 256` it is another
number than the pending one. -/
theorem request_frames (n : Int) (hn : 1 ≤ n) :
    allPacketsPayload = [1, 0] ∧
    ∃ b : Byte, specificPacketPayload n = [2, b] ∧ (b.val : Int) = n % 256 ∧
      ((b.val : Int) = n ↔ (1 ≤ n ∧ n ≤ 255)) ∧ (256 ≤ n → (b.val : Int) ≠ n) := by
  refine ⟨by decide, charToByte (intToChar n), ?_, charToByte_intToChar n, ?_, ?_⟩
  · unfold specificPacketPayload
    congr 1
  · rw [charToByte_intToChar]
    omega
  · intro h
    rw [charToByte_intToChar]
    omega

/-- C16, on the pending sequence number 300: the frame asks for 44. -/
theorem request_frames_witness :
    specificPacketPayload 300 = [2, 44] ∧
    (allPacketsPayload = [1, 0] ∧
      ∃ b : Byte, specificPacketPayload 300 = [2, b] ∧ (b.val : Int) = 300 % 256 ∧
        ((b.val : Int) = 300 ↔ (1 ≤ (300 : Int) ∧ (300 : Int) ≤ 255)) ∧
        (256 ≤ (300 : Int) → (b.val : Int) ≠ 300)) :=
  ⟨by decide, request_frames 300 (by decide)⟩

/-! ## One record of a bulk session -/

theorem seqRange_length (e q : Int) : (seqRange e q).length = (q - e).toNat := by
  unfold seqRange
  simp

theorem seqRange_getElem? (e q : Int) (i : Nat) (h : i < (q - e).toNat) :
    (seqRange e q)[i]? = some (e + (i : Int)) := by
  unfold seqRange
  rw [List.getElem?_map, List.getElem?_range h]
  rfl

/-- C17 as stated fails: with `seq_num = 2^31 - 2`, the valid record with
sequence number `2^31 - 1` pushes `2^31 - 2` and leaves `seq_num = -2^31`, not
`max e q + 1 = 2^31`. -/
theorem bulk_step_wraps :
    tickIntegrityCheck (tickOf 2147483647) = true ∧
    processTick (tickOf 2147483647) ⟨⟨[], []⟩, 2147483646⟩
      = .running ⟨⟨[tickOf 2147483647], [2147483646]⟩, -2147483648⟩ ∧
    (-2147483648 : Int) ≠ max 2147483646 2147483647 + 1 := by
  refine ⟨by decide, by decide, by decide⟩

/-- C17, amended. For every `int` value `e` of `seq_num` and every valid record
with sequence number `q`, the step of the bulk session pushes `e, e+1, ..., q-1`
in this order on the pending stack (nothing when `q ≤ e`), appends the record,
and, when `max e q < 2^31 - 1`, sets `seq_num` to `max e q + 1`; so with `q ≤ e`
the pending stack is unchanged and, when `e < 2^31 - 1`, `seq_num` still goes up
by one. -/
theorem bulk_step_effect (t : Tick) (b : Bulk) (hv : tickIntegrityCheck t = true)
    (hlo : -2 ^ 31 ≤ b.seq_num) (hq : t.packet_sequence ≤ 2 ^ 31 - 1) :
    ∃ b1, processTick t b = .running b1 ∧
      b1.g.tick_vector = b.g.tick_vector ++ [t] ∧
      b1.g.missed_packets
        = (seqRange b.seq_num t.packet_sequence).reverse ++ b.g.missed_packets ∧
      (seqRange b.seq_num t.packet_sequence).length = (t.packet_sequence - b.seq_num).toNat ∧
      (∀ i : Nat, i < (t.packet_sequence - b.seq_num).toNat →
        (seqRange b.seq_num t.packet_sequence)[i]? = some (b.seq_num + (i : Int))) ∧
      (max b.seq_num t.packet_sequence < 2 ^ 31 - 1 →
        b1.seq_num = max b.seq_num t.packet_sequence + 1) ∧
      (t.packet_sequence ≤ b.seq_num →
        b1.g.missed_packets = b.g.missed_packets ∧
        (b.seq_num < 2 ^ 31 - 1 → b1.seq_num = b.seq_num + 1)) := by
  have hstep := processTick_valid t b hv
  rw [track_eq b.seq_num t.packet_sequence b.g.missed_packets hlo hq] at hstep
  unfold observe at hstep
  refine ⟨_, hstep, rfl, rfl, seqRange_length _ _, fun i hi => seqRange_getElem? _ _ i hi,
    ?_, ?_⟩
  · intro hmax
    exact intWrap_eq _ (by omega) (by omega)
  · intro hle
    refine ⟨?_, ?_⟩
    · show (seqRange b.seq_num t.packet_sequence).reverse ++ b.g.missed_packets
        = b.g.missed_packets
      rw [seqRange_of_le _ _ hle]
      rfl
    · intro he
      show intWrap (max b.seq_num t.packet_sequence + 1) = b.seq_num + 1
      rw [max_eq_left hle]
      exact intWrap_eq _ (by omega) (by omega)

/-- C17 amended, on `seq_num = 3` with pending 1: record 5 pushes 3, 4; record
1 pushes nothing. -/
theorem bulk_step_effect_witness :
    processTick (tickOf 5) ⟨⟨[tickOf 2], [1]⟩, 3⟩
      = .running ⟨⟨[tickOf 2, tickOf 5], [4, 3, 1]⟩, 6⟩ ∧
    ∃ b1, processTick (tickOf 1) ⟨⟨[tickOf 2], [1]⟩, 3⟩ = .running b1 ∧
      b1.g.tick_vector = [tickOf 2] ++ [tickOf 1] ∧ b1.g.missed_packets = [1] ∧
      b1.seq_num = 3 + 1 := by
  refine ⟨by decide, ?_⟩
  obtain ⟨b1, hb, htv, _, _, _, _, hle⟩ :=
    bulk_step_effect (tickOf 1) ⟨⟨[tickOf 2], [1]⟩, 3⟩ (by decide) (by decide) (by decide)
  exact ⟨b1, hb, htv, (hle (by decide)).1, (hle (by decide)).2 (by decide)⟩

/-! ## The extraction loop on one read -/

theorem recvLoop_buffer (reads : List Recv) (buf1 buf2 : List Byte) (b : Bulk) :
    recvLoop reads buf1 b = recvLoop reads buf2 b := by
  rw [recvLoop_eq, recvLoop_eq]

/-- C18. For a read of `n ≥ 1` bytes whose whole windows all decode to valid
records, the extraction loop returns (with the fuel the session gives it, and
with any fuel of at least `n / 17`) after appending exactly `n / 17` records,
the `i`-th decoded at offset `17 * i`; every window lies below `n`, so the
records are those of the bytes read, whatever the array held; and the session
goes on to the next read with nothing of the array playing a part. -/
theorem extraction_of_read (bytes buf : List Byte) (b : Bulk) (rest : List Recv)
    (h1 : 1 ≤ bytes.length)
    (hvalid : ∀ i, i < bytes.length / 17 →
      tickIntegrityCheck (decodeTick bytes (17 * i)) = true) :
    ∃ b1, extractLoop bytes.length (recvInto buf bytes) bytes.length 0 b = .running b1 ∧
      (∀ fuel, bytes.length / 17 ≤ fuel →
        extractLoop fuel (recvInto buf bytes) bytes.length 0 b = .running b1) ∧
      b1.g.tick_vector = b.g.tick_vector ++
        (List.range (bytes.length / 17)).map (fun i => decodeTick (recvInto buf bytes) (17 * i)) ∧
      ((List.range (bytes.length / 17)).map
        (fun i => decodeTick (recvInto buf bytes) (17 * i))).length = bytes.length / 17 ∧
      (∀ i, i < bytes.length / 17 → 17 * i + 16 < bytes.length ∧
        decodeTick (recvInto buf bytes) (17 * i) = decodeTick bytes (17 * i)) ∧
      (∀ stale, extractLoop bytes.length (recvInto stale bytes) bytes.length 0 b = .running b1) ∧
      recvLoop (.data bytes :: rest) buf b = recvLoop rest [] b1 := by
  have hwin : ∀ i, i < bytes.length / 17 → 17 * i + 16 < bytes.length := by
    intro i hi
    have := Nat.div_mul_le_self bytes.length 17
    have h2 : (i + 1) * 17 ≤ bytes.length / 17 * 17 := Nat.mul_le_mul_right 17 hi
    omega
  have hdec : ∀ (stale : List Byte) i, i < bytes.length / 17 →
      decodeTick (recvInto stale bytes) (17 * i) = decodeTick bytes (17 * i) := by
    intro stale i hi
    have := hwin i hi
    exact decodeTick_recvInto stale bytes (17 * i) (by omega)
  have hmap : ∀ stale : List Byte,
      (List.range (bytes.length / 17)).map (fun i => decodeTick (recvInto stale bytes) (0 + 17 * i))
        = windows bytes := by
    intro stale
    unfold windows
    apply List.map_congr_left
    intro i hi
    rw [Nat.zero_add]
    exact hdec stale i (List.mem_range.mp hi)
  have hval : ∀ t ∈ windows bytes, tickIntegrityCheck t = true := by
    intro t ht
    unfold windows at ht
    rw [List.mem_map] at ht
    obtain ⟨i, hi, rfl⟩ := ht
    exact hvalid i (List.mem_range.mp hi)
  have hrun : ∀ (stale : List Byte) fuel, bytes.length / 17 ≤ fuel →
      extractLoop fuel (recvInto stale bytes) bytes.length 0 b = .running
        { g := { tick_vector := b.g.tick_vector ++ windows bytes
                 missed_packets :=
                   (trackAll (b.seq_num, b.g.missed_packets) (seqs (windows bytes))).2 }
          seq_num := (trackAll (b.seq_num, b.g.missed_packets) (seqs (windows bytes))).1 } := by
    intro stale fuel hf
    rw [extractLoop_eq fuel _ _ 0 b hf, hmap stale, processTicks_valid _ _ hval]
  refine ⟨_, hrun buf _ (Nat.div_le_self _ _), fun fuel hf => hrun buf fuel hf, ?_, by simp,
    fun i hi => ⟨hwin i hi, hdec buf i hi⟩, fun stale => hrun stale _ (Nat.div_le_self _ _), ?_⟩
  · have := hmap buf
    simp only [Nat.zero_add] at this
    rw [this]
  · rw [recvLoop, if_neg (by omega), hrun buf _ (Nat.div_le_self _ _)]
    exact recvLoop_buffer _ _ _ _

/-- C18, on a read of 27 bytes (record 1 and the first 10 bytes of record 2)
followed by a read of the other 7 bytes of record 2: one record is decoded, and
the halves of record 2 are not put together. -/
theorem extraction_of_read_witness :
    (∃ b1, extractLoop 27 (recvInto [] (frame 1 ++ (frame 2).take 10)) 27 0 ⟨⟨[], []⟩, 1⟩
        = .running b1 ∧ b1.g.tick_vector = [tickOf 1]) ∧
    runAll (allOf [.data (frame 1 ++ (frame 2).take 10), .data ((frame 2).drop 10)]) ⟨[], []⟩
      = .running ⟨⟨[tickOf 1], []⟩, 2, .completed⟩ := by
  refine ⟨?_, by decide⟩
  obtain ⟨b1, hb, _, htv, _⟩ :=
    extraction_of_read (frame 1 ++ (frame 2).take 10) [] ⟨⟨[], []⟩, 1⟩ [] (by decide) (by decide)
  exact ⟨b1, hb, htv.trans (by decide)⟩

/-! ## Records are appended as they arrive -/

/-- C19. A bulk session whose records all pass validation returns with exactly
these records appended to the collection, in arrival order, whatever their
sequence numbers are; two records with the same sequence number are both kept
and the session does not end in `exit(0)`. -/
theorem bulk_appends_in_arrival_order (s : AllSession) (g : Globals)
    (h1 : s.WSA_ok = true) (h2 : s.connect_ok = true) (h3 : s.send_ok = true)
    (hvalid : ∀ t ∈ sessionTicks s.reads, tickIntegrityCheck t = true) :
    ∃ e, runAll s g = .running e ∧
      e.g.tick_vector = g.tick_vector ++ sessionTicks s.reads ∧
      e.g.tick_vector.length = g.tick_vector.length + (sessionTicks s.reads).length := by
  rw [runAll_connected s g h1 h2 h3, processTicks_valid _ _ hvalid]
  exact ⟨_, rfl, rfl, by simp⟩

/-- C19, on a bulk transfer that delivers record 2 twice. -/
theorem bulk_appends_in_arrival_order_witness :
    (∃ e, runAll (allOf [.data (frame 1 ++ frame 2), .data (frame 2 ++ frame 3)])
        ⟨[tickOf 7], []⟩ = .running e ∧
      e.g.tick_vector = [tickOf 7] ++
        sessionTicks [.data (frame 1 ++ frame 2), .data (frame 2 ++ frame 3)] ∧
      e.g.tick_vector.length = [tickOf 7].length +
        (sessionTicks [.data (frame 1 ++ frame 2), .data (frame 2 ++ frame 3)]).length) ∧
    sessionTicks [.data (frame 1 ++ frame 2), .data (frame 2 ++ frame 3)]
      = [tickOf 1, tickOf 2, tickOf 2, tickOf 3] :=
  ⟨bulk_appends_in_arrival_order
      (allOf [.data (frame 1 ++ frame 2), .data (frame 2 ++ frame 3)]) ⟨[tickOf 7], []⟩
      rfl rfl rfl (by decide), by decide⟩

/-! ## The order of the pending stack -/

theorem observe_inv (e q : Int) (m : List Int) (he : 1 ≤ e)
    (hm : m.Pairwise (· > ·)) (hb : ∀ n ∈ m, 1 ≤ n ∧ n < e) :
    1 ≤ (observe (e, m) q).1 ∧ (observe (e, m) q).2.Pairwise (· > ·) ∧
      ∀ n ∈ (observe (e, m) q).2, 1 ≤ n ∧ n < (observe (e, m) q).1 := by
  unfold observe
  dsimp only
  refine ⟨by omega, ?_, ?_⟩
  · rw [List.pairwise_append]
    refine ⟨?_, hm, ?_⟩
    · rw [List.pairwise_reverse]
      exact (seqRange_sorted e q).imp (fun hab => hab)
    · intro x hx y hy
      rw [List.mem_reverse, mem_seqRange] at hx
      have := (hb y hy).2
      omega
  · intro n hn
    rcases List.mem_append.mp hn with h | h
    · rw [List.mem_reverse, mem_seqRange] at h
      omega
    · have := hb n h
      omega

theorem observeAll_inv (qs : List Int) (e : Int) (m : List Int) (he : 1 ≤ e)
    (hm : m.Pairwise (· > ·)) (hb : ∀ n ∈ m, 1 ≤ n ∧ n < e) :
    1 ≤ (observeAll (e, m) qs).1 ∧ (observeAll (e, m) qs).2.Pairwise (· > ·) ∧
      ∀ n ∈ (observeAll (e, m) qs).2, 1 ≤ n ∧ n < (observeAll (e, m) qs).1 := by
  induction qs generalizing e m with
  | nil => exact ⟨he, hm, hb⟩
  | cons q rest ih =>
    obtain ⟨h1, h2, h3⟩ := observe_inv e q m he hm hb
    have hstep : observeAll (e, m) (q :: rest)
        = observeAll ((observe (e, m) q).1, (observe (e, m) q).2) rest := rfl
    rw [hstep]
    exact ih _ _ h1 h2 h3

theorem runOne_stack (s : OneSession) (g : Globals) :
    (∀ g1, runOne s g = .running g1 →
      g1.missed_packets = g.missed_packets ∨ g1.missed_packets = g.missed_packets.tail) ∧
    (∀ g1, runOne s g = .exited g1 → g1 = g) := by
  have hsame : ∀ (o : Outcome Globals), o = .running g ∨ o = .exited g →
      (∀ g1, o = .running g1 →
        g1.missed_packets = g.missed_packets ∨ g1.missed_packets = g.missed_packets.tail) ∧
      (∀ g1, o = .exited g1 → g1 = g) := by
    intro o ho
    rcases ho with rfl | rfl
    · exact ⟨fun g1 h => by simp only [Outcome.running.injEq] at h; exact Or.inl (h ▸ rfl),
        fun g1 h => by simp at h⟩
    · exact ⟨fun g1 h => by simp at h,
        fun g1 h => by simp only [Outcome.exited.injEq] at h; exact h.symm⟩
  unfold runOne sendSpecificPacketRequests
  split
  · exact hsame _ (Or.inl rfl)
  · split
    · exact hsame _ (Or.inl rfl)
    · split
      · exact hsame _ (Or.inl rfl)
      · split
        · exact hsame _ (Or.inl rfl)
        · simp only
          split
          · constructor
            · intro g1 h
              simp only [Outcome.running.injEq] at h
              exact Or.inr (h ▸ rfl)
            · intro g1 h
              simp at h
          · exact hsame _ (Or.inr rfl)

theorem backfillLoop_suffix (ones : List OneSession) (g : Globals) :
    (backfillLoop ones g).globals.missed_packets <:+ g.missed_packets := by
  induction ones generalizing g with
  | nil =>
    unfold backfillLoop
    split <;> exact List.suffix_refl _
  | cons s rest ih =>
    unfold backfillLoop
    split
    · have key := runOne_stack s g
      cases hr : runOne s g with
      | running g1 =>
        have h1 := ih g1
        rcases key.1 g1 hr with h | h
        · exact h ▸ h1
        · exact h1.trans (h ▸ List.tail_suffix _)
      | exited g1 =>
        rw [key.2 g1 hr]
        exact List.suffix_refl _
    · exact List.suffix_refl _

theorem requested_largest (g : Globals) (hp : g.missed_packets.Pairwise (· > ·)) :
    (∀ k ∈ g.missed_packets, k ≤ requested g) ∧
    (∀ k ∈ g.missed_packets.tail, k < requested g) := by
  unfold requested
  cases hm : g.missed_packets with
  | nil => simp
  | cons n rest =>
    rw [hm] at hp
    have hlt : ∀ k ∈ rest, k < n := fun k hk => (List.pairwise_cons.mp hp).1 k hk
    constructor
    · intro k hk
      rcases List.mem_cons.mp hk with rfl | hk1
      · exact le_refl _
      · exact le_of_lt (hlt k hk1)
    · intro k hk
      exact hlt k hk

theorem observeAll_append_fst_le (st : Int × List Int) (a b : List Int) :
    (observeAll st a).1 ≤ (observeAll st (a ++ b)).1 := by
  have happ : observeAll st (a ++ b) = observeAll (observeAll st a) b := by
    unfold observeAll
    rw [List.foldl_append]
  rw [happ]
  exact observeAll_fst_ge b (observeAll st a).1 (observeAll st a).2

theorem processTicks_no_overflow (ts : List Tick) (g : Globals)
    (hts : ∀ t ∈ ts, tickIntegrityCheck t = true)
    (hfit : (observeAll (1, g.missed_packets) (seqs ts)).1 ≤ 2 ^ 31 - 1) :
    processTicks ts { g := g, seq_num := 1 } = .running
      { g := { tick_vector := g.tick_vector ++ ts
               missed_packets := (observeAll (1, g.missed_packets) (seqs ts)).2 }
        seq_num := (observeAll (1, g.missed_packets) (seqs ts)).1 } := by
  have hge := observeAll_fst_ge (seqs ts) 1 g.missed_packets
  rw [processTicks_valid ts _ hts]
  simp only
  rw [trackAll_eq (seqs ts) 1 g.missed_packets (by omega) (by omega) (by omega),
    intWrap_eq _ (by omega) hfit]

/-- C20 as stated fails: the bulk transfer of the valid records `2^31 - 1` and
5 wraps `seq_num` to `-2^31` after the first record, and the second record then
pushes `-2^31, ..., 4`: the pending stack holds 0, holds 1 twice, and is not
strictly increasing towards the top. -/
theorem pending_stack_after_wrap :
    ∃ e, runAll (allOf [.data (maxFrame ++ frame 5)]) ⟨[], []⟩ = .running e ∧
      (∀ t ∈ sessionTicks [.data (maxFrame ++ frame 5)], tickIntegrityCheck t = true) ∧
      seqs (sessionTicks [.data (maxFrame ++ frame 5)]) = [2147483647, 5] ∧
      (0 : Int) ∈ e.g.missed_packets ∧ ¬ e.g.missed_packets.Nodup ∧
      ¬ e.g.missed_packets.Pairwise (· > ·) := by
  have hticks : sessionTicks (allOf [.data (maxFrame ++ frame 5)]).reads
      = [tickOf 2147483647, tickOf 5] := by decide
  have hvalid : ∀ t ∈ sessionTicks [.data (maxFrame ++ frame 5)],
      tickIntegrityCheck t = true := by decide
  have hw1 : intWrap (max 1 2147483647 + 1) = -2147483648 := by decide
  have hw2 : intWrap (max (-2147483648) 5 + 1) = 6 := by decide
  have ht1 : track (1, []) 2147483647 = (-2147483648, (seqRange 1 2147483647).reverse ++ []) := by
    rw [track_eq 1 2147483647 [] (by decide) (by decide)]
    unfold observe
    rw [hw1]
  have ht2 : track (-2147483648, (seqRange 1 2147483647).reverse ++ []) 5
      = (6, (seqRange (-2147483648) 5).reverse ++ ((seqRange 1 2147483647).reverse ++ [])) := by
    rw [track_eq (-2147483648) 5 _ (by decide) (by decide)]
    unfold observe
    rw [hw2]
  have htrack : trackAll (1, []) (seqs [tickOf 2147483647, tickOf 5])
      = (6, (seqRange (-2147483648) 5).reverse ++ ((seqRange 1 2147483647).reverse ++ [])) := by
    show track (track (1, []) 2147483647) 5 = _
    rw [ht1, ht2]
  have hrun : runAll (allOf [.data (maxFrame ++ frame 5)]) ⟨[], []⟩ = .running
      { g := { tick_vector := [tickOf 2147483647, tickOf 5]
               missed_packets :=
                 (seqRange (-2147483648) 5).reverse ++ ((seqRange 1 2147483647).reverse ++ []) }
        seq_num := 6
        ending := .completed } := by
    rw [runAll_connected _ _ rfl rfl rfl, hticks,
      processTicks_valid _ _ (by decide)]
    simp only [htrack]
    rfl
  have h0 : (0 : Int) ∈
      (seqRange (-2147483648) 5).reverse ++ ((seqRange 1 2147483647).reverse ++ []) := by
    apply List.mem_append_left
    rw [List.mem_reverse, mem_seqRange]
    decide
  have hdup : ¬ ((seqRange (-2147483648) 5).reverse
      ++ ((seqRange 1 2147483647).reverse ++ [])).Nodup := by
    intro hn
    have hdis := (List.nodup_append.mp hn).2.2
    have ha : (1 : Int) ∈ (seqRange (-2147483648) 5).reverse := by
      rw [List.mem_reverse, mem_seqRange]
      decide
    have hb : (1 : Int) ∈ (seqRange 1 2147483647).reverse ++ [] := by
      apply List.mem_append_left
      rw [List.mem_reverse, mem_seqRange]
      decide
    exact hdis ha hb
  refine ⟨_, hrun, hvalid, by decide, h0, hdup, ?_⟩
  intro hp
  exact hdup (hp.imp (fun hab => ne_of_gt hab))

/-- C20, amended. In a bulk session that starts with an empty pending stack and
whose records, in whatever order, all pass validation, as long as the counter
has not overflowed (the value `seq_num` reaches when computed without a bound,
one past the larger of the counter and the sequence number at every record, is
at most `2^31 - 1`): after every record the pending stack is strictly increasing
from bottom to top, each entry is at least 1 and below `seq_num`, and no entry
occurs twice. So in every state of the backfill (where the stack is an end piece
of the stack the bulk session left) the number requested is the largest pending
one and all others are smaller: the gaps are drained in strictly descending
order. -/
theorem pending_stack_descending (s : AllSession) (g : Globals)
    (h1 : s.WSA_ok = true) (h2 : s.connect_ok = true) (h3 : s.send_ok = true)
    (hg : g.missed_packets = [])
    (hvalid : ∀ t ∈ sessionTicks s.reads, tickIntegrityCheck t = true)
    (hfit : (observeAll (1, []) (seqs (sessionTicks s.reads))).1 ≤ 2 ^ 31 - 1) :
    (∀ seen rest, sessionTicks s.reads = seen ++ rest →
      ∃ b1, processTicks seen { g := g, seq_num := 1 } = .running b1 ∧
        b1.g.missed_packets.Pairwise (· > ·) ∧
        (∀ n ∈ b1.g.missed_packets, 1 ≤ n ∧ n < b1.seq_num) ∧
        b1.g.missed_packets.Nodup) ∧
    (∃ e, runAll s g = .running e ∧
      e.g.missed_packets.Pairwise (· > ·) ∧
      (∀ n ∈ e.g.missed_packets, 1 ≤ n ∧ n < e.seq_num) ∧
      e.g.missed_packets.Nodup ∧
      (∀ ones : List OneSession,
        (backfillLoop ones e.g).globals.missed_packets <:+ e.g.missed_packets) ∧
      (∀ g1 : Globals, g1.missed_packets <:+ e.g.missed_packets →
        g1.missed_packets.Pairwise (· > ·) ∧
        (∀ k ∈ g1.missed_packets, k ≤ requested g1) ∧
        (∀ k ∈ g1.missed_packets.tail, k < requested g1))) := by
  have hinv : ∀ ts : List Tick, (∀ t ∈ ts, tickIntegrityCheck t = true) →
      (observeAll (1, []) (seqs ts)).1 ≤ 2 ^ 31 - 1 →
      ∃ b1, processTicks ts { g := g, seq_num := 1 } = .running b1 ∧
        b1.g.missed_packets.Pairwise (· > ·) ∧
        (∀ n ∈ b1.g.missed_packets, 1 ≤ n ∧ n < b1.seq_num) ∧
        b1.g.missed_packets.Nodup := by
    intro ts hts hf
    obtain ⟨_, o2, o3⟩ := observeAll_inv (seqs ts) 1 g.missed_packets (le_refl _)
      (by rw [hg]; exact List.Pairwise.nil) (by rw [hg]; simp)
    refine ⟨_, processTicks_no_overflow ts g hts (by rw [hg]; exact hf), o2, o3, ?_⟩
    exact o2.imp (fun hab => ne_of_gt hab)
  constructor
  · intro seen rest hsplit
    apply hinv
    · intro t ht
      exact hvalid t (by rw [hsplit]; exact List.mem_append_left _ ht)
    · have hle := observeAll_append_fst_le (1, []) (seqs seen) (seqs rest)
      have hsp : seqs (sessionTicks s.reads) = seqs seen ++ seqs rest := by
        rw [hsplit]
        simp [seqs]
      rw [hsp] at hfit
      omega
  · obtain ⟨b1, hb, p1, p2, p3⟩ := hinv (sessionTicks s.reads) hvalid hfit
    refine ⟨{ g := b1.g, seq_num := b1.seq_num, ending := endingOf b1 }, ?_, p1, p2, p3,
      fun ones => backfillLoop_suffix ones b1.g, ?_⟩
    · rw [runAll_connected s g h1 h2 h3, hb]
    · intro g1 hsuf
      have hp : g1.missed_packets.Pairwise (· > ·) := p1.sublist hsuf.sublist
      exact ⟨hp, requested_largest g1 hp⟩

/-- C20 amended, on the bulk transfer 3, 1, 6: the pending stack is 5, 2, 1
from the top, and the backfill answered for 5 and 2 leaves 1. -/
theorem pending_stack_descending_witness :
    runAll (allOf [.data (frame 3 ++ frame 1 ++ frame 6)]) ⟨[], []⟩
      = .running ⟨⟨[tickOf 3, tickOf 1, tickOf 6], [5, 2, 1]⟩, 7, .completed⟩ ∧
    backfillLoop [oneOf (.data (frame 5)), oneOf (.data (frame 2))]
        ⟨[tickOf 3, tickOf 1, tickOf 6], [5, 2, 1]⟩
      = .waiting ⟨[tickOf 3, tickOf 1, tickOf 6, tickOf 5, tickOf 2], [1]⟩ ∧
    ∃ e, runAll (allOf [.data (frame 3 ++ frame 1 ++ frame 6)]) ⟨[], []⟩ = .running e ∧
      e.g.missed_packets.Pairwise (· > ·) ∧
      (∀ n ∈ e.g.missed_packets, 1 ≤ n ∧ n < e.seq_num) ∧
      e.g.missed_packets.Nodup :=
  ⟨by decide, by decide,
    (pending_stack_descending (allOf [.data (frame 3 ++ frame 1 ++ frame 6)]) ⟨[], []⟩
      rfl rfl rfl rfl (by decide) (by decide)).2.imp
      (fun _ h => ⟨h.1, h.2.1, h.2.2.1, h.2.2.2.1⟩)⟩

end client
